import Mathlib

/-!
Verification of the zone membership manager
(`src/Engine/source/scene/zones/sceneZoneSpaceManager.cpp`).

Shallow embedding conventions:
* `U32` zone IDs and object handles become `Nat`; the `InvalidZoneId`
  sentinel on a zone-space range becomes `Option Nat` (`none` = invalid).
* Scene objects (both plain objects and zone spaces) are identified by a
  `Nat` id; their mutable fields (`mZoneRefDirty`, `mNumCurrZones`,
  `mZoneListHandle`, `mZoneRangeStart`, `mNumZones`, type-mask bits) live in
  an `ObjState` record, and the whole object population is a total function
  `ObjId -> ObjState`.
* `Box3F` boxes are abstract region tokens: a box is a list of tokens, the
  `Box3F::Invalid` sentinel is the empty list, and the engine's accumulating
  `Box3F::intersect` (which actually extends the box to the union) is list
  append.  The geometry itself is owned by external collaborators.
* The external spatial container and the geometric queries answered by zone
  spaces (`getPointZone`, `getOverlappingZones`) are out-of-scope
  collaborators per the spec; they are modelled as an oracle `Env` and the
  theorems quantify over it.
* `AssertFatal` documents a caller precondition (fatal in debug builds);
  an operation invoked with its precondition violated is modelled as
  rejected (state returned unchanged).
* The pooled `ZoneObjectList` containers are modelled by value: freeing a
  list clears its contents and leaves the slot pointing at the cleared
  list (matching `_freeZoneList`, which clears the object vector before
  recycling), so a freed slot holds `some []`.  `mZoneLists` entries are
  `Option (List ObjId)` with `none` for a NULL/uninitialized pointer slot.
* The membership table `mObjectZoneLists` is handle-addressed; handles are
  opaque to all callers, so the slot-arena free list is modelled by a
  monotone fresh-handle counter (handle `0` means "no entry", as in the
  source).
-/

abbrev ObjId := Nat
abbrev ZoneId := Nat

/-- Zone ID of the root (outdoor) zone (`SceneZoneSpaceManager::RootZoneId`). -/
def RootZoneId : ZoneId := 0

/-- Object id of the manager-owned `SceneRootZone` instance (`mRootZone`). -/
def rootZoneObjId : ObjId := 0

/-- Modelled from the spec: `SceneObject::MaxObjectZones`, the "small fixed
maximum object-zone count" bounding a membership-table entry.  The header
defining the constant is not part of the reviewed sources; the engine value
is 128, and none of the claims depend on the exact value. -/
def MaxObjectZones : Nat := 128

/-- A `Box3F` region as an abstract list of region tokens; `[]` plays the
role of `Box3F::Invalid`, and `Box3F::intersect` (which accumulates the
union of boxes) is append. -/
abbrev Box3F := List Nat

/-- Mutable per-object state tracked by the manager (fields of `SceneObject`
and `SceneZoneSpace` that this unit reads or writes). -/
structure ObjState where
  /-- C++ dynamic type test `dynamic_cast to SceneZoneSpace` succeeds. -/
  isZoneSpaceClass : Bool := false
  /-- C++ dynamic type test for `SceneRootZone` / `isRootZone()`. -/
  isRootZoneClass : Bool := false
  /-- The `ZoneObjectType` bit of `mTypeMask` (set/cleared by the manager). -/
  zoneTypeMask : Bool := false
  /-- The `OUTDOOR_OBJECT_TYPEMASK` bits of the type mask. -/
  outdoorTypeMask : Bool := false
  /-- `isGlobalBounds()`. -/
  globalBounds : Bool := false
  /-- `mZoneRefDirty`. -/
  zoneRefDirty : Bool := false
  /-- `mNumCurrZones`. -/
  numCurrZones : Nat := 0
  /-- `mZoneListHandle` (0 = no membership-table entry). -/
  zoneListHandle : Nat := 0
  /-- `mZoneRangeStart` (`none` = `InvalidZoneId`). -/
  zoneRangeStart : Option Nat := none
  /-- `mNumZones`. -/
  numZones : Nat := 0
  /-- `getWorldBox()` as an abstract region. -/
  worldBox : Box3F := []
deriving Repr, DecidableEq, Inhabited

/-- Pointwise update of the object population at one id. -/
def updFn (f : ObjId → ObjState) (k : ObjId) (v : ObjState) : ObjId → ObjState :=
  fun x => if x = k then v else f x

/-- The membership table `mObjectZoneLists`: handle to bounded zone-id list. -/
abbrev ZoneTable := List (Nat × List ZoneId)

/-- Values stored for a handle (`getValues`); `[]` when the handle has no entry. -/
def getValuesT (t : ZoneTable) (h : Nat) : List ZoneId :=
  (((t.find? (fun p => p.1 == h)).map Prod.snd)).getD []

/-- Allocate a fresh entry (`allocList`); the caller supplies the fresh handle. -/
def allocListT (t : ZoneTable) (h : Nat) (zones : List ZoneId) : ZoneTable :=
  t ++ [(h, zones)]

/-- Free a handle's entry (`freeList`). -/
def freeListT (t : ZoneTable) (h : Nat) : ZoneTable :=
  t.filter (fun p => p.1 != h)

/-- Overwrite a handle's entry in place (`reallocList`). -/
def reallocListT (t : ZoneTable) (h : Nat) (zones : List ZoneId) : ZoneTable :=
  t.map (fun p => if p.1 == h then (h, zones) else p)

/-- Replace occurrences of one zone id with another inside a handle's entry
(`replaceListBin`). -/
def replaceListBinT (t : ZoneTable) (h : Nat) (oldId newId : ZoneId) : ZoneTable :=
  t.map (fun p =>
    if p.1 == h then (p.1, p.2.map (fun z => if z == oldId then newId else z)) else p)

/-- Membership test inside a handle's entry (`containsBinItem`). -/
def containsBinItemT (t : ZoneTable) (h : Nat) (z : ZoneId) : Bool :=
  (getValuesT t h).contains z

/-- The manager state: the fields of `SceneZoneSpaceManager`. -/
structure MgrState where
  /-- All scene objects' manager-visible fields. -/
  objs : ObjId → ObjState
  /-- `mZoneSpaces`: registered zone spaces in registration order. -/
  zoneSpaces : List ObjId
  /-- `mZoneLists`: per zone id, the `ZoneObjectList` of resident objects
  (`none` for a NULL slot). -/
  zoneLists : List (Option (List ObjId))
  /-- `mObjectZoneLists`. -/
  objectZoneLists : ZoneTable
  /-- Next fresh membership-table handle (handles are opaque; 0 is reserved). -/
  nextListHandle : Nat
  /-- `mNumTotalAllocatedZones`. -/
  numTotalAllocatedZones : Nat
  /-- `mNumActiveZones`. -/
  numActiveZones : Nat
  /-- `mDirtyObjects`. -/
  dirtyObjects : List ObjId
  /-- `mDirtyZoneSpaces`. -/
  dirtyZoneSpaces : List ObjId
  /-- `mDirtyArea` (`[]` = `Box3F::Invalid`). -/
  dirtyArea : Box3F

/-- The external collaborators: the spatial container (`mContainer`) and the
geometric queries each zone space answers.  All are read-only oracles. -/
structure Env where
  /-- `findObjectList(area, ZoneObjectType, ...)`: the zone-space query. -/
  findZoneSpaces : Box3F → List ObjId
  /-- `findObjectList(area, 0xFFFFFFFF, ...)`: the all-objects query. -/
  findAllObjects : Box3F → List ObjId
  /-- `SceneZoneSpace::getPointZone(p)`; `none` = `InvalidZoneId`. -/
  getPointZone : ObjId → Nat → Option ZoneId
  /-- `SceneZoneSpace::getOverlappingZones(object, zones, numZones)` returning
  the zone list and the outside-overlap flag. -/
  getOverlappingZonesObj : ObjId → ObjId → List ZoneId × Bool
  /-- `SceneZoneSpace::getOverlappingZones(area, zones, numZones)`. -/
  getOverlappingZonesArea : ObjId → Box3F → List ZoneId × Bool

/-- The tight point-sized query box used by `findZone`. -/
def pointQueryBox (p : Nat) : Box3F := [p]

/-- Linear scan of `mZoneSpaces` (`_getZoneSpaceIndex`); `none` = -1. -/
def zoneSpaceIndexAux (o : ObjId) : List ObjId → Option Nat
  | [] => none
  | x :: rest => if x = o then some 0 else (zoneSpaceIndexAux o rest).map (· + 1)

/-- `SceneZoneSpaceManager::_getZoneSpaceIndex`. -/
def _getZoneSpaceIndex (s : MgrState) (o : ObjId) : Option Nat :=
  zoneSpaceIndexAux o s.zoneSpaces

/-- Modelled from the spec: the owning zone space of a zone id
(`getZoneOwner`, declared in the header outside the reviewed sources): each
allocated zone id belongs to exactly one registered zone space, the one whose
contiguous range contains it. -/
def getZoneOwner (s : MgrState) (zoneId : ZoneId) : Option ObjId :=
  s.zoneSpaces.find? (fun o =>
    match (s.objs o).zoneRangeStart with
    | some rs => decide (rs ≤ zoneId) && decide (zoneId < rs + (s.objs o).numZones)
    | none => false)

/-- Modelled from the spec: `SceneZoneSpace::_onZoneAddObject(object, zoneIds)`
(implemented outside the reviewed sources).  Per the spec's data model each
`ZoneObjectList` holds "the scene objects currently resident in that zone"
and the membership table and zone lists agree, so the notified owner records
the object in each of the given zones' object lists. -/
def _onZoneAddObject (s : MgrState) (zoneIds : List ZoneId) (obj : ObjId) : MgrState :=
  { s with zoneLists := zoneIds.foldl (fun zl z =>
      match zl.getD z none with
      | none => zl
      | some l => zl.set z (some (l ++ [obj]))) s.zoneLists }

/-- Modelled from the spec: `SceneZoneSpace::_onZoneRemoveObject(object)`
(implemented outside the reviewed sources).  The notified owner forgets the
leaving object, removing it from the object lists of its own zone range. -/
def _onZoneRemoveObject (s : MgrState) (owner : ObjId) (obj : ObjId) : MgrState :=
  { s with zoneLists := (List.range (s.objs owner).numZones).foldl (fun zl m =>
      let z := (s.objs owner).zoneRangeStart.getD 0 + m
      match zl.getD z none with
      | none => zl
      | some l => zl.set z (some (l.filter (fun x => x ≠ obj))) ) s.zoneLists }

/-- `SceneZoneSpaceManager::_setObjectZoneList` (lines 752-783): allocate,
free, or overwrite the object's membership-table entry and sync
`mNumCurrZones`. -/
def _setObjectZoneList (s : MgrState) (o : ObjId) (zoneList : List ZoneId) : MgrState :=
  let st := s.objs o
  let s :=
    if st.zoneListHandle = 0 then
      { s with objectZoneLists := allocListT s.objectZoneLists s.nextListHandle zoneList,
               objs := updFn s.objs o { st with zoneListHandle := s.nextListHandle },
               nextListHandle := s.nextListHandle + 1 }
    else if zoneList.length = 0 then
      { s with objectZoneLists := freeListT s.objectZoneLists st.zoneListHandle,
               objs := updFn s.objs o { st with zoneListHandle := 0 } }
    else
      { s with objectZoneLists := reallocListT s.objectZoneLists st.zoneListHandle zoneList }
  { s with objs := updFn s.objs o { s.objs o with numCurrZones := zoneList.length } }

/-- `SceneZoneSpaceManager::_clearZoneList` (lines 787-815): for every object
in the zone's list, drop its occupancy count, mark it dirty when it loses its
last zone, and notify the owning zone space. -/
def _clearZoneList (s : MgrState) (zoneId : ZoneId) : MgrState :=
  let list := (s.zoneLists.getD zoneId none).getD []
  let owner := getZoneOwner s zoneId
  list.foldl (fun s obj =>
    let st := s.objs obj
    let st := { st with numCurrZones := st.numCurrZones - 1 }
    let st := if st.numCurrZones = 0 then { st with zoneRefDirty := true } else st
    let s := { s with objs := updFn s.objs obj st }
    match owner with
    | some w => _onZoneRemoveObject s w obj
    | none => s) s

/-- `SceneZoneSpaceManager::_zoneRemove` (lines 709-737).  The `freeList`
parameter is accepted and ignored exactly as in the source body. -/
def _zoneRemove (s : MgrState) (o : ObjId) (_freeListFlag : Bool) : MgrState :=
  let st := s.objs o
  if st.zoneListHandle = 0 then s
  else
    let zones := getValuesT s.objectZoneLists st.zoneListHandle
    let s := zones.foldl (fun s z =>
      match getZoneOwner s z with
      | some w => _onZoneRemoveObject s w o
      | none => s) s
    { s with objectZoneLists := freeListT s.objectZoneLists st.zoneListHandle,
             objs := updFn s.objs o
               { s.objs o with zoneListHandle := 0, zoneRefDirty := false, numCurrZones := 0 } }

/-- One record of `mTempObjectZones` (`TempZoneRecord`). -/
structure TempZoneRecord where
  space : ObjId
  startZone : Nat
  numZones : Nat
deriving Repr, DecidableEq

/-- Accumulator of the `_zoneInsert` owner loop (lines 628-670):
`globalZones`, `mTempObjectZones`, `remainingZones` and `outsideIncluded`. -/
structure InsertAcc where
  globalZones : List ZoneId
  records : List TempZoneRecord
  remainingZones : Nat
  outsideIncluded : Bool
deriving Repr, DecidableEq

/-- One iteration of the `_zoneInsert` owner loop: skip non-zone-spaces and
the object itself, accumulate the owner's overlapping zones (clamped to the
remaining capacity), and and-in the outside-overlap flag. -/
def insertStep (f : ObjId → ObjState) (env : Env) (o : ObjId)
    (acc : InsertAcc) (e : ObjId) : InsertAcc :=
  if !(f e).isZoneSpaceClass then acc
  else if e = o then acc
  else
    let r := env.getOverlappingZonesObj e o
    let acc := { acc with outsideIncluded := acc.outsideIncluded && r.2 }
    let n := min acc.remainingZones r.1.length
    if 0 < n then
      { acc with
        records := acc.records ++ [⟨e, acc.globalZones.length, n⟩],
        globalZones := acc.globalZones ++ r.1.take n,
        remainingZones := acc.remainingZones - n }
    else acc

/-- The initial `_zoneInsert` accumulator. -/
def insertAcc0 : InsertAcc := ⟨[], [], MaxObjectZones, true⟩

/-- The `outsideOnly` condition of `_zoneInsert` (line 606). -/
def outsideOnlyB (s : MgrState) (o : ObjId) : Bool :=
  (s.numActiveZones == 1) || (s.objs o).globalBounds || (s.objs o).outdoorTypeMask

/-- The query list `_zoneInsert` works from: the caller-initialized scratch
list, or a fresh container query over the object's world box (lines 618-619). -/
def insertQuery (s : MgrState) (env : Env) (o : ObjId)
    (queryList : List ObjId) (queryListInitialized : Bool) : List ObjId :=
  if queryListInitialized then queryList else env.findZoneSpaces (s.objs o).worldBox

/-- The `_zoneInsert` owner loop (lines 628-670) run on a query list. -/
def insertLoopAcc (s : MgrState) (env : Env) (o : ObjId) (query : List ObjId) : InsertAcc :=
  query.foldl (insertStep s.objs env o) insertAcc0

/-- The accumulator before the root-zone entry: the owner loop's result, or
the empty accumulator when the object is outdoor-only (the loop is skipped,
lines 613-671). -/
def insertBaseAcc (s : MgrState) (env : Env) (o : ObjId) (query : List ObjId) : InsertAcc :=
  if outsideOnlyB s o then insertAcc0 else insertLoopAcc s env o query

/-- The condition of line 676: the object is outdoor-only, or it crosses into
the outside zone (per every overlapping owner) with capacity to spare. -/
def insertRootCond (s : MgrState) (env : Env) (o : ObjId) (query : List ObjId) : Bool :=
  outsideOnlyB s o ||
    ((insertBaseAcc s env o query).outsideIncluded &&
      decide (0 < (insertBaseAcc s env o query).remainingZones))

/-- The zone accumulation of `_zoneInsert` including the root-zone entry
(lines 606-684). -/
def insertFinalAcc (s : MgrState) (env : Env) (o : ObjId) (query : List ObjId) : InsertAcc :=
  if insertRootCond s env o query then
    { insertBaseAcc s env o query with
      records := (insertBaseAcc s env o query).records ++
        [⟨rootZoneObjId, (insertBaseAcc s env o query).globalZones.length, 1⟩],
      globalZones := (insertBaseAcc s env o query).globalZones ++ [RootZoneId] }
  else insertBaseAcc s env o query

/-- The commit phase of `_zoneInsert` (lines 686-704): write the merged list
to the membership table, notify the contributing owners, clear the dirty
flag. -/
def _zoneInsertCommit (s : MgrState) (o : ObjId) (acc : InsertAcc) : MgrState :=
  let s := if 0 < acc.globalZones.length then _setObjectZoneList s o acc.globalZones else s
  let s := acc.records.foldl (fun s r =>
      if 0 < r.numZones then
        _onZoneAddObject s ((acc.globalZones.drop r.startZone).take r.numZones) o
      else s) s
  { s with objs := updFn s.objs o { s.objs o with zoneRefDirty := false } }

/-- `SceneZoneSpaceManager::_zoneInsert` (lines 592-705). -/
def _zoneInsert (s : MgrState) (env : Env) (o : ObjId)
    (queryList : List ObjId) (queryListInitialized : Bool) : MgrState :=
  _zoneInsertCommit s o
    (insertFinalAcc s env o (insertQuery s env o queryList queryListInitialized))

/-- `SceneZoneSpaceManager::_rezoneObject` (lines 378-431). -/
def _rezoneObject (s : MgrState) (env : Env) (o : ObjId) : MgrState :=
  let st := s.objs o
  if st.numCurrZones = 0 then _zoneInsert s env o [] false
  else if (s.numActiveZones == 1) || st.globalBounds || st.outdoorTypeMask then
    { s with objs := updFn s.objs o { st with zoneRefDirty := false } }
  else
    let query := env.findZoneSpaces st.worldBox
    let zones := getValuesT s.objectZoneLists st.zoneListHandle
    if query.isEmpty && (st.numCurrZones == 1) && (zones.getD 0 (RootZoneId + 1) == RootZoneId) then
      { s with objs := updFn s.objs o { st with zoneRefDirty := false } }
    else
      _zoneInsert (_zoneRemove s o false) env o query true

/-- `SceneZoneSpaceManager::_rezoneObjects` (lines 173-193): snapshot the
container query, then rezone every returned object except the root zone. -/
def _rezoneObjects (s : MgrState) (env : Env) (area : Box3F) : MgrState :=
  (env.findAllObjects area).foldl (fun s o =>
    if o = rootZoneObjId then s else _rezoneObject s env o) s

/-- `SceneZoneSpaceManager::notifyObjectChanged` (lines 481-508). -/
def notifyObjectChanged (s : MgrState) (o : ObjId) : MgrState :=
  let st := s.objs o
  if st.zoneRefDirty then s
  else
    let s :=
      if st.zoneTypeMask then
        if st.isZoneSpaceClass then { s with dirtyZoneSpaces := s.dirtyZoneSpaces ++ [o] }
        else s
      else { s with dirtyObjects := s.dirtyObjects ++ [o] }
    { s with objs := updFn s.objs o { st with zoneRefDirty := true } }

/-- `SceneZoneSpaceManager::registerObject` (lines 435-440). -/
def registerObject (s : MgrState) (o : ObjId) : MgrState :=
  notifyObjectChanged s o

/-- Accumulator of the compaction walk: the object population (zone-range
reassignments), the membership table, the `newZoneLists` vector being filled
and `nextZoneId`. -/
structure CompactAcc where
  objs : ObjId → ObjState
  table : ZoneTable
  newLists : List (Option (List ObjId))
  nextZoneId : Nat

/-- The per-zone body of the compaction walk (lines 227-245): relocate the
zone list from the old to the new slot, then update membership entries.
The source iterates `mZoneLists[newZoneId]` here - the pre-compaction list
at the NEW index - rather than the relocated list `mZoneLists[oldZoneId]`. -/
def compactZoneStep (origLists : List (Option (List ObjId))) (f : ObjId → ObjState)
    (oldZoneId newZoneId : ZoneId)
    (acc : ZoneTable × List (Option (List ObjId))) : ZoneTable × List (Option (List ObjId)) :=
  let newLists := acc.2.set newZoneId (origLists.getD oldZoneId none)
  match origLists.getD newZoneId none with
  | none => (acc.1, newLists)
  | some objsIn =>
    (objsIn.foldl (fun t obj => replaceListBinT t (f obj).zoneListHandle oldZoneId newZoneId)
       acc.1,
     newLists)

/-- The per-owner body of the compaction walk (lines 211-246). -/
def compactSpace (origLists : List (Option (List ObjId))) (acc : CompactAcc)
    (space : ObjId) : CompactAcc :=
  let oldZoneRangeStart := (acc.objs space).zoneRangeStart.getD 0
  let newZoneRangeStart := acc.nextZoneId
  let numZones := (acc.objs space).numZones
  let f := updFn acc.objs space { acc.objs space with zoneRangeStart := some newZoneRangeStart }
  let tl := (List.range numZones).foldl
    (fun a m => compactZoneStep origLists f (oldZoneRangeStart + m) (newZoneRangeStart + m) a)
    (acc.table, acc.newLists)
  ⟨f, tl.1, tl.2, newZoneRangeStart + numZones⟩

/-- `SceneZoneSpaceManager::_compactZonesCheck` (lines 197-252). -/
def _compactZonesCheck (s : MgrState) : MgrState :=
  if s.numActiveZones > s.numTotalAllocatedZones / 2 then s
  else
    let acc0 : CompactAcc :=
      ⟨s.objs, s.objectZoneLists, List.replicate s.numActiveZones none, 0⟩
    let acc := s.zoneSpaces.foldl (compactSpace s.zoneLists) acc0
    { s with objs := acc.objs, objectZoneLists := acc.table,
             zoneLists := acc.newLists, numTotalAllocatedZones := acc.nextZoneId }

/-- The bookkeeping of `registerZones` after the compaction check (lines
74-98): allocate the next range at the high-water mark, extend `mZoneLists`
with fresh pooled lists, append the owner and set its `ZoneObjectType` bit. -/
def registerZonesCore (s : MgrState) (o : ObjId) (numZones : Nat) : MgrState :=
  { s with
    numTotalAllocatedZones := s.numTotalAllocatedZones + numZones,
    numActiveZones := s.numActiveZones + numZones,
    zoneLists := s.zoneLists ++ List.replicate numZones (some []),
    zoneSpaces := s.zoneSpaces ++ [o],
    objs := updFn s.objs o
      { s.objs o with numZones := numZones,
                      zoneRangeStart := some s.numTotalAllocatedZones,
                      zoneTypeMask := true } }

/-- `SceneZoneSpaceManager::registerZones` (lines 69-115). -/
def registerZones (s : MgrState) (o : ObjId) (numZones : Nat) : MgrState :=
  if (_getZoneSpaceIndex s o).isSome then s
  else
    let t := registerZonesCore (_compactZonesCheck s) o numZones
    if (t.objs o).isRootZoneClass then t
    else
      notifyObjectChanged
        { t with objs := updFn t.objs o { t.objs o with zoneRefDirty := false } } o

/-- `SceneZoneSpaceManager::unregisterZones` (lines 119-169). -/
def unregisterZones (s : MgrState) (o : ObjId) : MgrState :=
  match _getZoneSpaceIndex s o with
  | none => s
  | some idx =>
    let zoneRangeStart := (s.objs o).zoneRangeStart.getD 0
    let numZones := (s.objs o).numZones
    let t := (List.range numZones).foldl (fun u j =>
      let u := _clearZoneList u (zoneRangeStart + j)
      { u with zoneLists := u.zoneLists.set (zoneRangeStart + j) (some []) }) s
    { t with
      numActiveZones := t.numActiveZones - numZones,
      zoneSpaces := t.zoneSpaces.eraseIdx idx,
      objs := updFn t.objs o
        { t.objs o with zoneTypeMask := false, zoneRangeStart := none, numZones := 0 },
      dirtyArea := t.dirtyArea ++ (t.objs o).worldBox }

/-- Phase-1 body of `updateZoningState` (lines 529-552): tear one dirty zone
space out of the zoning state and merge its volume into the dirty area.
`_disconnectAllZoneSpaces` maintains owner-internal adjacency only and has
no manager state. -/
def processDirtyZoneSpace (s : MgrState) (zs : ObjId) : MgrState :=
  let s := _zoneRemove s zs true
  let rs := (s.objs zs).zoneRangeStart.getD 0
  let s := (List.range (s.objs zs).numZones).foldl (fun s m => _clearZoneList s (rs + m)) s
  { s with dirtyArea := s.dirtyArea ++ (s.objs zs).worldBox }

/-- `SceneZoneSpaceManager::updateZoningState` (lines 512-588).  The while
loops pop from the back of each queue and their bodies never push, so they
are modelled as folds over the (LIFO-reversed) queue snapshot with the queue
emptied. -/
def updateZoningState (s : MgrState) (env : Env) : MgrState :=
  if s.dirtyObjects.isEmpty && s.dirtyZoneSpaces.isEmpty && s.dirtyArea.isEmpty then s
  else
    let zsQueue := s.dirtyZoneSpaces
    let s := { s with dirtyZoneSpaces := [] }
    let s := zsQueue.reverse.foldl processDirtyZoneSpace s
    let s :=
      if s.dirtyArea.isEmpty then s
      else
        let s := _rezoneObjects s env s.dirtyArea
        { s with dirtyArea := [] }
    let objQueue := s.dirtyObjects
    let s := { s with dirtyObjects := [] }
    objQueue.reverse.foldl (fun s o =>
      if (s.objs o).zoneRefDirty then _rezoneObject s env o else s) s

/-- The scan of `findZone` over the query list (lines 296-316): first zone
space whose `getPointZone` accepts the point. -/
def findZoneLoop (f : ObjId → ObjState) (env : Env) (p : Nat) :
    List ObjId → Option (ObjId × ZoneId)
  | [] => none
  | e :: rest =>
    if (f e).isZoneSpaceClass then
      match env.getPointZone e p with
      | some z => some (e, z)
      | none => findZoneLoop f env p rest
    else findZoneLoop f env p rest

/-- `SceneZoneSpaceManager::findZone` (lines 268-322). -/
def findZone (s : MgrState) (env : Env) (p : Nat) : ObjId × ZoneId :=
  if s.numActiveZones = 1 then (rootZoneObjId, RootZoneId)
  else
    match findZoneLoop s.objs env p (env.findZoneSpaces (pointQueryBox p)) with
    | some r => r
    | none => (rootZoneObjId, RootZoneId)

/-- Accumulator of the `findZones` owner loop. -/
structure FindZonesAcc where
  outsideIncluded : Bool
  numTotalZones : Nat
  outZones : List ZoneId
deriving Repr, DecidableEq

/-- One iteration of the `findZones` owner loop (lines 339-361). -/
def findZonesStep (f : ObjId → ObjState) (env : Env) (area : Box3F)
    (acc : FindZonesAcc) (e : ObjId) : FindZonesAcc :=
  if !(f e).isZoneSpaceClass then acc
  else
    let r := env.getOverlappingZonesArea e area
    { outsideIncluded := acc.outsideIncluded || r.2,
      numTotalZones := acc.numTotalZones + r.1.length,
      outZones := acc.outZones ++ r.1 }

/-- `SceneZoneSpaceManager::findZones` (lines 326-374); returns the count and
the output vector (which is appended to, never cleared). -/
def findZones (s : MgrState) (env : Env) (area : Box3F) (outZones : List ZoneId) :
    Nat × List ZoneId :=
  let acc := (env.findZoneSpaces area).foldl (findZonesStep s.objs env area)
    ⟨false, 0, outZones⟩
  if acc.outsideIncluded || (acc.numTotalZones == 0) then
    (acc.numTotalZones + 1, acc.outZones ++ [RootZoneId])
  else (acc.numTotalZones, acc.outZones)

/-- The membership-symmetry sweep of `verifyState` (lines 885-898): every
object in an owned zone's list must hold that zone in its membership-table
entry. -/
def verifyMembershipCheck (s : MgrState) : Bool :=
  s.zoneSpaces.all (fun space =>
    (List.range (s.objs space).numZones).all (fun n =>
      let zoneId := (s.objs space).zoneRangeStart.getD 0 + n
      ((s.zoneLists.getD zoneId none).getD []).all (fun obj =>
        containsBinItemT s.objectZoneLists (s.objs obj).zoneListHandle zoneId)))

/-- The operations that drive the zone-ID allocator: registration (which
runs the compaction check) and unregistration of a zone space. -/
inductive ZOp where
  | register (o : ObjId) (n : Nat)
  | unregister (o : ObjId)
deriving Repr, DecidableEq

/-- Apply one allocator operation. -/
def applyZOp (s : MgrState) : ZOp → MgrState
  | .register o n => registerZones s o n
  | .unregister o => unregisterZones s o

/-- Run a sequence of allocator operations. -/
def runZOps (s : MgrState) (ops : List ZOp) : MgrState :=
  ops.foldl applyZOp s

/-- The `SceneRootZone` object's fields as constructed by the manager. -/
def rootObjState : ObjState :=
  { isZoneSpaceClass := true, isRootZoneClass := true }

/-- A fresh manager (constructor, lines 42-54) over a given scene-object
population; the root zone object is forced to its constructed state. -/
def emptyStateWith (f : ObjId → ObjState) : MgrState :=
  { objs := fun o => if o = rootZoneObjId then rootObjState else f o,
    zoneSpaces := [], zoneLists := [], objectZoneLists := [], nextListHandle := 1,
    numTotalAllocatedZones := 0, numActiveZones := 0,
    dirtyObjects := [], dirtyZoneSpaces := [], dirtyArea := [] }

/-- The manager after the root zone registered itself (`registerZones(root, 1)`,
the first registration in any scene). -/
def initStateWith (f : ObjId → ObjState) : MgrState :=
  registerZones (emptyStateWith f) rootZoneObjId 1

/-! ## Derived notions used by the statements -/

/-- Start of an owner's zone range (`getZoneRangeStart`), read as 0 when invalid. -/
def ownerStart (f : ObjId → ObjState) (o : ObjId) : Nat :=
  (f o).zoneRangeStart.getD 0

/-- One-past-the-end of an owner's zone range. -/
def ownerEnd (f : ObjId → ObjState) (o : ObjId) : Nat :=
  ownerStart f o + (f o).numZones

/-- Zone id `z` lies inside the owner's allocated range. -/
def inOwnerRange (f : ObjId → ObjState) (o : ObjId) (z : ZoneId) : Prop :=
  ownerStart f o ≤ z ∧ z < ownerEnd f o

/-- The range-describing fields of an object. -/
def rangeData (st : ObjState) : Option Nat × Nat :=
  (st.zoneRangeStart, st.numZones)

/-- Overwrite only the range start of an object state. -/
def setRS (st : ObjState) (v : Option Nat) : ObjState :=
  { st with zoneRangeStart := v }

/-- The owner ranges along the list are ordered and non-overlapping, starting
at or after `b`. -/
def chainB (f : ObjId → ObjState) : Nat → List ObjId → Bool
  | _, [] => true
  | b, o :: rest => decide (b ≤ ownerStart f o) && chainB f (ownerEnd f o) rest

/-- The owner ranges along the list tile exactly, consecutively from `b`. -/
def exactChainB (f : ObjId → ObjState) : Nat → List ObjId → Bool
  | _, [] => true
  | b, o :: rest => ((f o).zoneRangeStart == some b) && exactChainB f (b + (f o).numZones) rest

/-- Total zone count over a list of owners. -/
def sumZones (f : ObjId → ObjState) (l : List ObjId) : Nat :=
  (l.map (fun o => (f o).numZones)).sum

/-- The allocator invariant maintained across registrations, unregistrations
and compactions. -/
structure MgrInv (s : MgrState) : Prop where
  chain : chainB s.objs 0 s.zoneSpaces = true
  ends : ∀ o ∈ s.zoneSpaces, ownerEnd s.objs o ≤ s.numTotalAllocatedZones
  act : s.numActiveZones = sumZones s.objs s.zoneSpaces
  ranges : ∀ o ∈ s.zoneSpaces, ((s.objs o).zoneRangeStart).isSome = true
  nd : s.zoneSpaces.Nodup

/-- The root zone sits at the head of the owner list with range `[0, 1)`. -/
def RootPinned (s : MgrState) : Prop :=
  s.zoneSpaces.head? = some rootZoneObjId ∧
  (s.objs rootZoneObjId).zoneRangeStart = some 0 ∧
  (s.objs rootZoneObjId).numZones = 1

/-- Frame: the allocator-visible data (owner list, counters, every object's
range fields and world box) is unchanged between two states. -/
def AllocFrame (s t : MgrState) : Prop :=
  t.zoneSpaces = s.zoneSpaces ∧
  t.numTotalAllocatedZones = s.numTotalAllocatedZones ∧
  t.numActiveZones = s.numActiveZones ∧
  (∀ x, rangeData (t.objs x) = rangeData (s.objs x)) ∧
  (∀ x, (t.objs x).worldBox = (s.objs x).worldBox)

/-- Frame: the dirty queues and the dirty area are unchanged. -/
def QFrame (s t : MgrState) : Prop :=
  t.dirtyObjects = s.dirtyObjects ∧
  t.dirtyZoneSpaces = s.dirtyZoneSpaces ∧
  t.dirtyArea = s.dirtyArea

/-- Every query entry that the `_zoneInsert` loop actually processes (a zone
space other than the object itself) reports outside-overlap. -/
def allOwnersOutsideB (f : ObjId → ObjState) (env : Env) (o : ObjId)
    (query : List ObjId) : Bool :=
  query.all (fun e =>
    if (f e).isZoneSpaceClass && !(e == o) then (env.getOverlappingZonesObj e o).2 else true)

/-- The zone ids aggregated by the `findZones` loop: each zone space's
reported overlap list, in query order. -/
def reportedZones (f : ObjId → ObjState) (env : Env) (area : Box3F) :
    List ObjId → List ZoneId
  | [] => []
  | e :: rest =>
    (if (f e).isZoneSpaceClass then (env.getOverlappingZonesArea e area).1 else []) ++
      reportedZones f env area rest

/-- Some zone space in the query reported outside-overlap to `findZones`. -/
def anyOutsideB (f : ObjId → ObjState) (env : Env) (area : Box3F) :
    List ObjId → Bool
  | [] => false
  | e :: rest =>
    (if (f e).isZoneSpaceClass then (env.getOverlappingZonesArea e area).2 else false) ||
      anyOutsideB f env area rest

/-! ## Concrete scenes used by witnesses and counterexamples -/

/-- An ordinary zone space's scene-object fields. -/
def spaceObjState (k : Nat) : ObjState :=
  { isZoneSpaceClass := true, worldBox := [100 + k] }

/-- A population where every non-root object is an ordinary zone space. -/
def cAllSpaces : ObjId → ObjState := fun k => spaceObjState k

/-- A population of plain (non-zone-space) objects. -/
def plainObjs : ObjId → ObjState := fun _ => { worldBox := [9] }

/-- An oracle whose container queries are empty. -/
def nullEnv : Env :=
  { findZoneSpaces := fun _ => [],
    findAllObjects := fun _ => [],
    getPointZone := fun _ _ => none,
    getOverlappingZonesObj := fun _ _ => ([], true),
    getOverlappingZonesArea := fun _ _ => ([], false) }

/-- Population for the compaction counterexample: object 10 is a plain
object, everything else is a zone space. -/
def c1Objs : ObjId → ObjState :=
  fun k => if k = 10 then { worldBox := [5] } else spaceObjState k

/-- Oracle for the compaction counterexample: owner 2 overlaps object 10 and
fully contains it in its zone 3. -/
def c1Env : Env :=
  { findZoneSpaces := fun b => if b = [5] then [2] else [],
    findAllObjects := fun _ => [],
    getPointZone := fun _ _ => none,
    getOverlappingZonesObj := fun e o => if e = 2 && o = 10 then ([3], false) else ([], true),
    getOverlappingZonesArea := fun _ _ => ([], false) }

/-- Root plus owner 1 (2 zones) plus owner 2 (1 zone), with object 10 zoned
into owner 2's zone 3. -/
def c1Inserted : MgrState :=
  _zoneInsert (runZOps (initStateWith c1Objs) [ZOp.register 1 2, ZOp.register 2 1])
    c1Env 10 [] false

/-- After owner 1 leaves, the next registration triggers compaction. -/
def c1Final : MgrState :=
  registerZones (unregisterZones c1Inserted 1) 3 1

/-- Holes after unregistration: owner ranges root `[0,1)` and owner 2 `[2,3)`
with 3 zones allocated. -/
def c3CxState : MgrState :=
  runZOps (initStateWith cAllSpaces) [ZOp.register 1 1, ZOp.register 2 1, ZOp.unregister 1]

/-- Scenario C state: 10 active zones, 22 allocated, after unregistering the
12-zone owner 1. -/
def c5Holes : MgrState :=
  runZOps (initStateWith cAllSpaces) [ZOp.register 1 12, ZOp.register 2 9, ZOp.unregister 1]

/-- The registration following scenario C, which compacts first. -/
def c5After : MgrState := registerZones c5Holes 3 1

/-- Population for the `_zoneInsert` capacity counterexample: object 10 is
plain, the rest are zone spaces. -/
def c4Objs : ObjId → ObjState :=
  fun k => if k = 10 then { worldBox := [7] } else spaceObjState k

/-- Oracle where owner 1 overlaps object 10 in `MaxObjectZones` zones and
also reports outside-overlap. -/
def c4CapEnv : Env :=
  { findZoneSpaces := fun b => if b = [7] then [1] else [],
    findAllObjects := fun _ => [],
    getPointZone := fun _ _ => none,
    getOverlappingZonesObj := fun e o =>
      if e = 1 && o = 10 then ((List.range MaxObjectZones).map (· + 1), true) else ([], true),
    getOverlappingZonesArea := fun _ _ => ([], false) }

/-- Root plus a 128-zone owner 1. -/
def c4CapState : MgrState :=
  runZOps (initStateWith c4Objs) [ZOp.register 1 MaxObjectZones]

/-- Object 10 inserted while owner 1 fills its entire zone capacity. -/
def c4CapResult : MgrState := _zoneInsert c4CapState c4CapEnv 10 [] false

/-- Scenario E oracle: owner 1 reports outside-overlap, owner 2 does not. -/
def c4eEnvTF : Env :=
  { findZoneSpaces := fun b => if b = [7] then [1, 2] else [],
    findAllObjects := fun _ => [],
    getPointZone := fun _ _ => none,
    getOverlappingZonesObj := fun e o =>
      if e = 1 && o = 10 then ([1], true)
      else if e = 2 && o = 10 then ([2], false) else ([], true),
    getOverlappingZonesArea := fun _ _ => ([], false) }

/-- Scenario E oracle variant: both owners report outside-overlap. -/
def c4eEnvTT : Env :=
  { findZoneSpaces := fun b => if b = [7] then [1, 2] else [],
    findAllObjects := fun _ => [],
    getPointZone := fun _ _ => none,
    getOverlappingZonesObj := fun e o =>
      if e = 1 && o = 10 then ([1], true)
      else if e = 2 && o = 10 then ([2], true) else ([], true),
    getOverlappingZonesArea := fun _ _ => ([], false) }

/-- Root plus two single-zone owners for scenario E. -/
def c4eState : MgrState :=
  runZOps (initStateWith c4Objs) [ZOp.register 1 1, ZOp.register 2 1]

/-- A scene with only the root zone and plain objects. -/
def c9State : MgrState := initStateWith plainObjs

/-- Oracle for the `findZone` witness: owner 2 accepts point 3 in zone 4. -/
def c7Env : Env :=
  { findZoneSpaces := fun b => if b = pointQueryBox 3 then [1, 2] else [],
    findAllObjects := fun _ => [],
    getPointZone := fun e p => if e = 2 && p = 3 then some 4 else none,
    getOverlappingZonesObj := fun _ _ => ([], true),
    getOverlappingZonesArea := fun _ _ => ([], false) }

/-- Root plus owner 1 (1 zone) and owner 2 (4 zones). -/
def c7State : MgrState :=
  runZOps (initStateWith cAllSpaces) [ZOp.register 1 1, ZOp.register 2 4]

/-- Oracle for the `findZones` witness: owner 1 reports zone 1 (contained),
owner 2 reports zones 2,3 plus outside-overlap. -/
def c6Env : Env :=
  { findZoneSpaces := fun b => if b = [50] then [1, 2] else [],
    findAllObjects := fun _ => [],
    getPointZone := fun _ _ => none,
    getOverlappingZonesObj := fun _ _ => ([], true),
    getOverlappingZonesArea := fun e a =>
      if e = 1 && a = [50] then ([1], false)
      else if e = 2 && a = [50] then ([2, 3], true) else ([], false) }

/-! ## Basic helper lemmas -/

theorem updFn_same (f : ObjId → ObjState) (k : ObjId) (v : ObjState) :
    updFn f k v k = v := by
  simp [updFn]

theorem updFn_ne (f : ObjId → ObjState) (k : ObjId) (v : ObjState) (x : ObjId)
    (h : x ≠ k) : updFn f k v x = f x := by
  simp [updFn, h]

theorem zoneSpaceIndexAux_eq_none (o : ObjId) (l : List ObjId) :
    zoneSpaceIndexAux o l = none ↔ o ∉ l := by
  induction l with
  | nil => simp [zoneSpaceIndexAux]
  | cons x rest ih =>
    by_cases hx : x = o
    · subst hx; simp [zoneSpaceIndexAux]
    · simp [zoneSpaceIndexAux, hx, ih, Option.map_eq_none]
      intro h
      exact fun hc => hx hc.symm

theorem zoneSpaceIndexAux_mem (o : ObjId) (l : List ObjId) (i : Nat)
    (h : zoneSpaceIndexAux o l = some i) : o ∈ l := by
  induction l generalizing i with
  | nil => simp [zoneSpaceIndexAux] at h
  | cons x rest ih =>
    by_cases hx : x = o
    · subst hx; exact List.mem_cons_self _ _
    · simp only [zoneSpaceIndexAux, if_neg hx] at h
      match hr : zoneSpaceIndexAux o rest with
      | none => rw [hr] at h; simp at h
      | some j => exact List.mem_cons_of_mem _ (ih j hr)

theorem mem_of_mem_eraseIdx (l : List ObjId) (i : Nat) (x : ObjId)
    (h : x ∈ l.eraseIdx i) : x ∈ l :=
  (List.eraseIdx_sublist l i).mem h

theorem nodup_eraseIdx (l : List ObjId) (i : Nat) (h : l.Nodup) :
    (l.eraseIdx i).Nodup :=
  (List.eraseIdx_sublist l i).nodup h

theorem not_mem_eraseIdx (l : List ObjId) (o : ObjId) (i : Nat)
    (hi : zoneSpaceIndexAux o l = some i) (hnd : l.Nodup) : o ∉ l.eraseIdx i := by
  induction l generalizing i with
  | nil => simp [zoneSpaceIndexAux] at hi
  | cons a rest ih =>
    by_cases ha : a = o
    · subst ha
      have h0 : i = 0 := by simp [zoneSpaceIndexAux] at hi; omega
      subst h0
      simpa [List.eraseIdx_cons_zero] using (List.nodup_cons.mp hnd).1
    · simp only [zoneSpaceIndexAux, if_neg ha] at hi
      match hr : zoneSpaceIndexAux o rest with
      | none => rw [hr] at hi; simp at hi
      | some j =>
        rw [hr] at hi
        simp at hi
        have hi2 : i = j + 1 := by omega
        subst hi2
        simp only [List.eraseIdx_cons_succ, List.mem_cons]
        rintro (h | h)
        · exact ha h.symm
        · exact ih j hr (List.nodup_cons.mp hnd).2 h

theorem sumZones_eraseIdx (f : ObjId → ObjState) (l : List ObjId) (o : ObjId) (i : Nat)
    (hi : zoneSpaceIndexAux o l = some i) :
    sumZones f l = sumZones f (l.eraseIdx i) + (f o).numZones := by
  induction l generalizing i with
  | nil => simp [zoneSpaceIndexAux] at hi
  | cons a rest ih =>
    by_cases ha : a = o
    · subst ha
      have h0 : i = 0 := by simp [zoneSpaceIndexAux] at hi; omega
      subst h0
      simp [sumZones, List.eraseIdx_cons_zero, Nat.add_comm]
    · simp only [zoneSpaceIndexAux, if_neg ha] at hi
      match hr : zoneSpaceIndexAux o rest with
      | none => rw [hr] at hi; simp at hi
      | some j =>
        rw [hr] at hi
        simp at hi
        have hi2 : i = j + 1 := by omega
        subst hi2
        simp only [sumZones, List.eraseIdx_cons_succ, List.map_cons, List.sum_cons]
        have := ih j hr
        simp only [sumZones] at this
        omega

/-! ## Chain lemmas for owner ranges -/

theorem chainB_weaken (f : ObjId → ObjState) (b1 b2 : Nat) (l : List ObjId)
    (hb : b1 ≤ b2) (h : chainB f b2 l = true) : chainB f b1 l = true := by
  cases l with
  | nil => simp [chainB]
  | cons o rest =>
    simp only [chainB, Bool.and_eq_true, decide_eq_true_eq] at h ⊢
    exact ⟨le_trans hb h.1, h.2⟩

theorem chainB_start_le (f : ObjId → ObjState) (b : Nat) (l : List ObjId)
    (h : chainB f b l = true) : ∀ o ∈ l, b ≤ ownerStart f o := by
  induction l generalizing b with
  | nil => simp
  | cons a rest ih =>
    simp only [chainB, Bool.and_eq_true, decide_eq_true_eq] at h
    intro o ho
    rcases List.mem_cons.mp ho with rfl | ho
    · exact h.1
    · have := ih (ownerEnd f a) h.2 o ho
      have ha : b ≤ ownerEnd f a := le_trans h.1 (Nat.le_add_right _ _)
      exact le_trans ha this

theorem chainB_pairwise (f : ObjId → ObjState) (b : Nat) (l : List ObjId)
    (h : chainB f b l = true) :
    l.Pairwise (fun a c => ownerEnd f a ≤ ownerStart f c) := by
  induction l generalizing b with
  | nil => exact List.Pairwise.nil
  | cons a rest ih =>
    simp only [chainB, Bool.and_eq_true, decide_eq_true_eq] at h
    exact List.Pairwise.cons (chainB_start_le f _ rest h.2) (ih _ h.2)

theorem chainB_congrOn (f g : ObjId → ObjState) (l : List ObjId)
    (hfg : ∀ o ∈ l, rangeData (f o) = rangeData (g o)) :
    ∀ b, chainB f b l = chainB g b l := by
  induction l with
  | nil => intro b; rfl
  | cons a rest ih =>
    intro b
    have ha := hfg a (List.mem_cons_self _ _)
    have h1 : ownerStart f a = ownerStart g a := by
      simp only [ownerStart]
      simp only [rangeData, Prod.mk.injEq] at ha
      rw [ha.1]
    have h2 : ownerEnd f a = ownerEnd g a := by
      simp only [ownerEnd, h1]
      simp only [rangeData, Prod.mk.injEq] at ha
      rw [ha.2]
    simp only [chainB, h1, h2, ih (fun o ho => hfg o (List.mem_cons_of_mem _ ho))]

theorem sumZones_congrOn (f g : ObjId → ObjState) (l : List ObjId)
    (hfg : ∀ o ∈ l, (f o).numZones = (g o).numZones) :
    sumZones f l = sumZones g l := by
  induction l with
  | nil => rfl
  | cons a rest ih =>
    simp only [sumZones, List.map_cons, List.sum_cons]
    rw [hfg a (List.mem_cons_self _ _)]
    have hrest := ih (fun o ho => hfg o (List.mem_cons_of_mem _ ho))
    simp only [sumZones] at hrest
    rw [hrest]

theorem chainB_append_one (f : ObjId → ObjState) (b : Nat) (l : List ObjId) (x : ObjId)
    (h : chainB f b l = true) (hends : ∀ o ∈ l, ownerEnd f o ≤ ownerStart f x)
    (hb : b ≤ ownerStart f x) : chainB f b (l ++ [x]) = true := by
  induction l generalizing b with
  | nil =>
    simp only [List.nil_append, chainB, Bool.and_eq_true, decide_eq_true_eq]
    exact ⟨hb, trivial⟩
  | cons a rest ih =>
    simp only [chainB, Bool.and_eq_true, decide_eq_true_eq] at h
    simp only [List.cons_append, chainB, Bool.and_eq_true, decide_eq_true_eq]
    exact ⟨h.1, ih _ h.2 (fun o ho => hends o (List.mem_cons_of_mem _ ho))
      (hends a (List.mem_cons_self _ _))⟩

theorem chainB_eraseIdx (f : ObjId → ObjState) (b : Nat) (l : List ObjId) (i : Nat)
    (h : chainB f b l = true) : chainB f b (l.eraseIdx i) = true := by
  induction l generalizing b i with
  | nil => simpa [List.eraseIdx_nil] using h
  | cons a rest ih =>
    simp only [chainB, Bool.and_eq_true, decide_eq_true_eq] at h
    cases i with
    | zero =>
      rw [List.eraseIdx_cons_zero]
      exact chainB_weaken f b (ownerEnd f a) rest
        (le_trans h.1 (Nat.le_add_right _ _)) h.2
    | succ j =>
      rw [List.eraseIdx_cons_succ]
      simp only [chainB, Bool.and_eq_true, decide_eq_true_eq]
      exact ⟨h.1, ih _ j h.2⟩

theorem exactChainB_chainB (f : ObjId → ObjState) (b : Nat) (l : List ObjId)
    (h : exactChainB f b l = true) : chainB f b l = true := by
  induction l generalizing b with
  | nil => rfl
  | cons a rest ih =>
    simp only [exactChainB, Bool.and_eq_true, beq_iff_eq] at h
    simp only [chainB, Bool.and_eq_true, decide_eq_true_eq]
    have hs : ownerStart f a = b := by simp [ownerStart, h.1]
    have he : ownerEnd f a = b + (f a).numZones := by simp [ownerEnd, hs]
    exact ⟨le_of_eq hs.symm, he ▸ ih _ h.2⟩

theorem exactChainB_ends (f : ObjId → ObjState) (b : Nat) (l : List ObjId)
    (h : exactChainB f b l = true) :
    ∀ o ∈ l, ownerEnd f o ≤ b + sumZones f l := by
  induction l generalizing b with
  | nil => simp
  | cons a rest ih =>
    simp only [exactChainB, Bool.and_eq_true, beq_iff_eq] at h
    intro o ho
    rcases List.mem_cons.mp ho with rfl | ho
    · have : ownerEnd f o = b + (f o).numZones := by simp [ownerEnd, ownerStart, h.1]
      rw [this]
      simp only [sumZones, List.map_cons, List.sum_cons]
      omega
    · have := ih _ h.2 o ho
      simp only [sumZones, List.map_cons, List.sum_cons] at this ⊢
      omega

theorem exactChainB_isSome (f : ObjId → ObjState) (b : Nat) (l : List ObjId)
    (h : exactChainB f b l = true) :
    ∀ o ∈ l, ((f o).zoneRangeStart).isSome = true := by
  induction l generalizing b with
  | nil => simp
  | cons a rest ih =>
    simp only [exactChainB, Bool.and_eq_true, beq_iff_eq] at h
    intro o ho
    rcases List.mem_cons.mp ho with rfl | ho
    · simp [h.1]
    · exact ih _ h.2 o ho

theorem chainB_sum_le (f : ObjId → ObjState) (c : Nat) (l : List ObjId) (bnd : Nat)
    (h : chainB f c l = true) (hends : ∀ o ∈ l, ownerEnd f o ≤ bnd) (hne : l ≠ []) :
    c + sumZones f l ≤ bnd := by
  induction l generalizing c with
  | nil => exact absurd rfl hne
  | cons a rest ih =>
    simp only [chainB, Bool.and_eq_true, decide_eq_true_eq] at h
    have hsc : sumZones f (a :: rest) = (f a).numZones + sumZones f rest := by
      simp [sumZones]
    have h1 := h.1
    cases rest with
    | nil =>
      have hb := hends a (List.mem_cons_self _ _)
      have hs0 : sumZones f ([] : List ObjId) = 0 := rfl
      simp only [ownerEnd] at hb
      omega
    | cons r2 rest2 =>
      have hr := ih (ownerEnd f a) h.2
        (fun o ho => hends o (List.mem_cons_of_mem _ ho)) (by simp)
      simp only [ownerEnd] at hr
      omega

theorem chainB_cover (f : ObjId → ObjState) (b : Nat) (l : List ObjId) (bnd : Nat)
    (h : chainB f b l = true) (hends : ∀ o ∈ l, ownerEnd f o ≤ bnd)
    (hsum : b + sumZones f l = bnd) :
    ∀ z, b ≤ z → z < bnd → ∃ o ∈ l, inOwnerRange f o z := by
  induction l generalizing b with
  | nil =>
    intro z hz1 hz2
    exfalso
    have hs0 : sumZones f ([] : List ObjId) = 0 := rfl
    omega
  | cons a rest ih =>
    intro z hz1 hz2
    simp only [chainB, Bool.and_eq_true, decide_eq_true_eq] at h
    have hsc : sumZones f (a :: rest) = (f a).numZones + sumZones f rest := by
      simp [sumZones]
    have hstart : ownerStart f a = b := by
      rcases Nat.eq_or_lt_of_le h.1 with heq | hlt
      · exact heq.symm
      · exfalso
        cases rest with
        | nil =>
          have hb := hends a (List.mem_cons_self _ _)
          have hs0 : sumZones f ([] : List ObjId) = 0 := rfl
          simp only [ownerEnd] at hb
          omega
        | cons r2 rest2 =>
          have hr := chainB_sum_le f (ownerEnd f a) (r2 :: rest2) bnd h.2
            (fun o ho => hends o (List.mem_cons_of_mem _ ho)) (by simp)
          simp only [ownerEnd] at hr
          omega
    by_cases hz : z < ownerEnd f a
    · exact ⟨a, List.mem_cons_self _ _, ⟨hstart ▸ hz1, hz⟩⟩
    · push_neg at hz
      have hend : ownerEnd f a = b + (f a).numZones := by
        simp [ownerEnd, hstart]
      have hsum2 : ownerEnd f a + sumZones f rest = bnd := by omega
      obtain ⟨o, ho, hin⟩ := ih (ownerEnd f a) h.2
        (fun o ho => hends o (List.mem_cons_of_mem _ ho)) hsum2 z hz hz2
      exact ⟨o, List.mem_cons_of_mem _ ho, hin⟩

/-! ## Frame lemmas -/

theorem qframe_refl (s : MgrState) : QFrame s s := ⟨rfl, rfl, rfl⟩

theorem qframe_trans {s t u : MgrState} (h1 : QFrame s t) (h2 : QFrame t u) :
    QFrame s u :=
  ⟨h2.1.trans h1.1, h2.2.1.trans h1.2.1, h2.2.2.trans h1.2.2⟩

theorem qframe_foldl {β : Type} (step : MgrState → β → MgrState)
    (hstep : ∀ s x, QFrame s (step s x)) (l : List β) (s : MgrState) :
    QFrame s (l.foldl step s) := by
  induction l generalizing s with
  | nil => exact qframe_refl s
  | cons x rest ih =>
    exact qframe_trans (hstep s x) (ih (step s x))

theorem allocframe_refl (s : MgrState) : AllocFrame s s :=
  ⟨rfl, rfl, rfl, fun _ => rfl, fun _ => rfl⟩

theorem allocframe_trans {s t u : MgrState} (h1 : AllocFrame s t) (h2 : AllocFrame t u) :
    AllocFrame s u :=
  ⟨h2.1.trans h1.1, h2.2.1.trans h1.2.1, h2.2.2.1.trans h1.2.2.1,
   fun x => (h2.2.2.2.1 x).trans (h1.2.2.2.1 x),
   fun x => (h2.2.2.2.2 x).trans (h1.2.2.2.2 x)⟩

theorem allocframe_foldl {β : Type} (step : MgrState → β → MgrState)
    (hstep : ∀ s x, AllocFrame s (step s x)) (l : List β) (s : MgrState) :
    AllocFrame s (l.foldl step s) := by
  induction l generalizing s with
  | nil => exact allocframe_refl s
  | cons x rest ih =>
    exact allocframe_trans (hstep s x) (ih (step s x))

theorem onZoneAddObject_qframe (s : MgrState) (zs : List ZoneId) (o : ObjId) :
    QFrame s (_onZoneAddObject s zs o) :=
  ⟨rfl, rfl, rfl⟩

theorem onZoneRemoveObject_qframe (s : MgrState) (w o : ObjId) :
    QFrame s (_onZoneRemoveObject s w o) :=
  ⟨rfl, rfl, rfl⟩

theorem onZoneAddObject_allocframe (s : MgrState) (zs : List ZoneId) (o : ObjId) :
    AllocFrame s (_onZoneAddObject s zs o) :=
  ⟨rfl, rfl, rfl, fun _ => rfl, fun _ => rfl⟩

theorem onZoneRemoveObject_allocframe (s : MgrState) (w o : ObjId) :
    AllocFrame s (_onZoneRemoveObject s w o) :=
  ⟨rfl, rfl, rfl, fun _ => rfl, fun _ => rfl⟩

theorem clearZoneList_qframe (s : MgrState) (z : ZoneId) :
    QFrame s (_clearZoneList s z) := by
  unfold _clearZoneList
  apply qframe_foldl
  intro s obj
  dsimp only
  split
  · exact qframe_trans ⟨rfl, rfl, rfl⟩ (onZoneRemoveObject_qframe _ _ _)
  · exact ⟨rfl, rfl, rfl⟩

theorem qframe_updObj (s : MgrState) (k : ObjId) (v : ObjState) :
    QFrame s { s with objs := updFn s.objs k v } :=
  ⟨rfl, rfl, rfl⟩

theorem allocframe_updObj (s : MgrState) (k : ObjId) (v : ObjState)
    (hv : rangeData v = rangeData (s.objs k)) (hw : v.worldBox = (s.objs k).worldBox) :
    AllocFrame s { s with objs := updFn s.objs k v } := by
  refine ⟨rfl, rfl, rfl, fun x => ?_, fun x => ?_⟩
  · by_cases hx : x = k
    · subst hx; show rangeData (updFn s.objs x v x) = _; rw [updFn_same]; exact hv
    · show rangeData (updFn s.objs k v x) = _; rw [updFn_ne _ _ _ _ hx]
  · by_cases hx : x = k
    · subst hx; show (updFn s.objs x v x).worldBox = _; rw [updFn_same]; exact hw
    · show (updFn s.objs k v x).worldBox = _; rw [updFn_ne _ _ _ _ hx]

theorem clearZoneList_allocframe (s : MgrState) (z : ZoneId) :
    AllocFrame s (_clearZoneList s z) := by
  unfold _clearZoneList
  apply allocframe_foldl
  intro s obj
  dsimp only
  split
  · refine allocframe_trans (allocframe_updObj s obj _ ?_ ?_)
      (onZoneRemoveObject_allocframe _ _ _)
    · dsimp only; split <;> rfl
    · dsimp only; split <;> rfl
  · refine allocframe_updObj s obj _ ?_ ?_
    · dsimp only; split <;> rfl
    · dsimp only; split <;> rfl

theorem setObjectZoneList_qframe (s : MgrState) (o : ObjId) (zl : List ZoneId) :
    QFrame s (_setObjectZoneList s o zl) := by
  unfold _setObjectZoneList
  dsimp only
  split
  · exact ⟨rfl, rfl, rfl⟩
  · split
    · exact ⟨rfl, rfl, rfl⟩
    · exact ⟨rfl, rfl, rfl⟩

theorem zoneRemove_qframe (s : MgrState) (o : ObjId) (b : Bool) :
    QFrame s (_zoneRemove s o b) := by
  unfold _zoneRemove
  dsimp only
  split
  · exact qframe_refl s
  · have h1 := qframe_foldl
      (fun s z => match getZoneOwner s z with
        | some w => _onZoneRemoveObject s w o
        | none => s)
      (fun s z => by
        dsimp only
        split
        · exact onZoneRemoveObject_qframe _ _ _
        · exact qframe_refl _)
      (getValuesT s.objectZoneLists (s.objs o).zoneListHandle) s
    exact qframe_trans h1 ⟨rfl, rfl, rfl⟩

theorem zoneInsertCommit_qframe (s : MgrState) (o : ObjId) (acc : InsertAcc) :
    QFrame s (_zoneInsertCommit s o acc) := by
  unfold _zoneInsertCommit
  have h1 : QFrame s
      (if 0 < acc.globalZones.length then _setObjectZoneList s o acc.globalZones else s) := by
    split
    · exact setObjectZoneList_qframe _ _ _
    · exact qframe_refl _
  have h2 := qframe_foldl
    (fun s r =>
      if 0 < r.numZones then
        _onZoneAddObject s ((acc.globalZones.drop r.startZone).take r.numZones) o
      else s)
    (fun s r => by
      dsimp only
      split
      · exact onZoneAddObject_qframe _ _ _
      · exact qframe_refl _)
    acc.records
    (if 0 < acc.globalZones.length then _setObjectZoneList s o acc.globalZones else s)
  exact qframe_trans (qframe_trans h1 h2) ⟨rfl, rfl, rfl⟩

theorem zoneInsert_qframe (s : MgrState) (env : Env) (o : ObjId)
    (q : List ObjId) (qi : Bool) : QFrame s (_zoneInsert s env o q qi) :=
  zoneInsertCommit_qframe s o _

theorem rezoneObject_qframe (s : MgrState) (env : Env) (o : ObjId) :
    QFrame s (_rezoneObject s env o) := by
  unfold _rezoneObject
  dsimp only
  split
  · exact zoneInsert_qframe _ _ _ _ _
  · split
    · exact ⟨rfl, rfl, rfl⟩
    · split
      · exact ⟨rfl, rfl, rfl⟩
      · exact qframe_trans (zoneRemove_qframe _ _ _) (zoneInsert_qframe _ _ _ _ _)

theorem rezoneObjects_qframe (s : MgrState) (env : Env) (area : Box3F) :
    QFrame s (_rezoneObjects s env area) := by
  unfold _rezoneObjects
  apply qframe_foldl
  intro s o
  dsimp only
  split
  · exact qframe_refl _
  · exact rezoneObject_qframe _ _ _

/-! ## Update-pass helper lemmas -/

theorem list_isEmpty_eq_nil {α : Type} (l : List α) (h : l.isEmpty = true) : l = [] := by
  cases l with
  | nil => rfl
  | cons a rest => simp [List.isEmpty] at h

theorem processDirtyZoneSpace_queues (s : MgrState) (zs : ObjId) :
    (processDirtyZoneSpace s zs).dirtyObjects = s.dirtyObjects ∧
    (processDirtyZoneSpace s zs).dirtyZoneSpaces = s.dirtyZoneSpaces := by
  unfold processDirtyZoneSpace
  have h1 := zoneRemove_qframe s zs true
  have h2 := qframe_foldl
    (fun u m => _clearZoneList u (((_zoneRemove s zs true).objs zs).zoneRangeStart.getD 0 + m))
    (fun u m => clearZoneList_qframe u _)
    (List.range ((_zoneRemove s zs true).objs zs).numZones) (_zoneRemove s zs true)
  exact ⟨h2.1.trans h1.1, h2.2.1.trans h1.2.1⟩

theorem foldl_processDirtyZS_queues (l : List ObjId) (u : MgrState) :
    (l.foldl processDirtyZoneSpace u).dirtyObjects = u.dirtyObjects ∧
    (l.foldl processDirtyZoneSpace u).dirtyZoneSpaces = u.dirtyZoneSpaces := by
  induction l generalizing u with
  | nil => exact ⟨rfl, rfl⟩
  | cons a rest ih =>
    have h := processDirtyZoneSpace_queues u a
    have h2 := ih (processDirtyZoneSpace u a)
    exact ⟨h2.1.trans h.1, h2.2.trans h.2⟩

theorem foldl_rezoneStep_qframe (env : Env) (l : List ObjId) (u : MgrState) :
    QFrame u (l.foldl (fun s o =>
      if (s.objs o).zoneRefDirty then _rezoneObject s env o else s) u) := by
  apply qframe_foldl
  intro s o
  dsimp only
  split
  · exact rezoneObject_qframe _ _ _
  · exact qframe_refl _

/-- C8: every call to `updateZoningState` leaves, on return, the zone-space
dirty queue empty, the plain-object dirty queue empty, and the accumulated
dirty area invalid (empty); hence the dirty state is empty/invalid at rest
between update passes. -/
theorem updateZoningState_postcondition (s : MgrState) (env : Env) :
    (updateZoningState s env).dirtyObjects = [] ∧
    (updateZoningState s env).dirtyZoneSpaces = [] ∧
    (updateZoningState s env).dirtyArea = [] := by
  unfold updateZoningState
  split
  case isTrue h =>
    simp only [Bool.and_eq_true] at h
    exact ⟨list_isEmpty_eq_nil _ h.1.1, list_isEmpty_eq_nil _ h.1.2,
      list_isEmpty_eq_nil _ h.2⟩
  case isFalse h =>
    dsimp only
    set t2 := s.dirtyZoneSpaces.reverse.foldl processDirtyZoneSpace
      { s with dirtyZoneSpaces := ([] : List ObjId) } with ht2
    have hq2 := foldl_processDirtyZS_queues s.dirtyZoneSpaces.reverse
      { s with dirtyZoneSpaces := ([] : List ObjId) }
    rw [← ht2] at hq2
    split
    case isTrue ha =>
      have hq4 := foldl_rezoneStep_qframe env t2.dirtyObjects.reverse
        { t2 with dirtyObjects := ([] : List ObjId) }
      refine ⟨hq4.1.trans rfl, hq4.2.1.trans hq2.2, hq4.2.2.trans ?_⟩
      exact list_isEmpty_eq_nil _ ha
    case isFalse ha =>
      set t3 : MgrState :=
        { _rezoneObjects t2 env t2.dirtyArea with dirtyArea := ([] : Box3F) } with ht3
      have hq3 : t3.dirtyObjects = t2.dirtyObjects ∧
          t3.dirtyZoneSpaces = t2.dirtyZoneSpaces ∧ t3.dirtyArea = [] := by
        have := rezoneObjects_qframe t2 env t2.dirtyArea
        exact ⟨this.1, this.2.1, rfl⟩
      have hq4 := foldl_rezoneStep_qframe env t3.dirtyObjects.reverse
        { t3 with dirtyObjects := ([] : List ObjId) }
      exact ⟨hq4.1.trans rfl, hq4.2.1.trans (hq3.2.1.trans hq2.2),
        hq4.2.2.trans hq3.2.2⟩

/-! ## Membership-table and insert-path lemmas -/

theorem getValuesT_append_fresh (t : ZoneTable) (h : Nat) (zs : List ZoneId)
    (hk : ∀ p ∈ t, p.1 ≠ h) : getValuesT (t ++ [(h, zs)]) h = zs := by
  induction t with
  | nil => simp [getValuesT]
  | cons p rest ih =>
    have hp : (p.1 == h) = false := by
      simp only [beq_eq_false_iff_ne]
      exact hk p (List.mem_cons_self _ _)
    simp only [getValuesT, List.cons_append, List.find?_cons, hp]
    exact ih (fun q hq => hk q (List.mem_cons_of_mem _ hq))

theorem freeListT_append_fresh (t : ZoneTable) (h : Nat) (zs : List ZoneId)
    (hk : ∀ p ∈ t, p.1 ≠ h) : freeListT (t ++ [(h, zs)]) h = t := by
  induction t with
  | nil => simp [freeListT]
  | cons p rest ih =>
    have hp : (p.1 != h) = true := by
      simp only [bne_iff_ne, ne_eq]
      exact hk p (List.mem_cons_self _ _)
    simp only [freeListT, List.cons_append, List.filter_cons, hp, if_true]
    rw [List.cons_inj_right]
    exact ih (fun q hq => hk q (List.mem_cons_of_mem _ hq))

/-- Frame: the object population, the membership table and the fresh-handle
counter are unchanged. -/
def TblFrame (s t : MgrState) : Prop :=
  t.objs = s.objs ∧ t.objectZoneLists = s.objectZoneLists ∧
  t.nextListHandle = s.nextListHandle

theorem tblframe_refl (s : MgrState) : TblFrame s s := ⟨rfl, rfl, rfl⟩

theorem tblframe_trans {s t u : MgrState} (h1 : TblFrame s t) (h2 : TblFrame t u) :
    TblFrame s u :=
  ⟨h2.1.trans h1.1, h2.2.1.trans h1.2.1, h2.2.2.trans h1.2.2⟩

theorem tblframe_foldl {β : Type} (step : MgrState → β → MgrState)
    (hstep : ∀ s x, TblFrame s (step s x)) (l : List β) (s : MgrState) :
    TblFrame s (l.foldl step s) := by
  induction l generalizing s with
  | nil => exact tblframe_refl s
  | cons x rest ih => exact tblframe_trans (hstep s x) (ih (step s x))

theorem onZoneAddObject_tblframe (s : MgrState) (zs : List ZoneId) (o : ObjId) :
    TblFrame s (_onZoneAddObject s zs o) :=
  ⟨rfl, rfl, rfl⟩

theorem onZoneRemoveObject_tblframe (s : MgrState) (w o : ObjId) :
    TblFrame s (_onZoneRemoveObject s w o) :=
  ⟨rfl, rfl, rfl⟩

theorem setObjectZoneList_fresh (s : MgrState) (o : ObjId) (zl : List ZoneId)
    (h0 : (s.objs o).zoneListHandle = 0) :
    ((_setObjectZoneList s o zl).objs o).zoneListHandle = s.nextListHandle ∧
    ((_setObjectZoneList s o zl).objs o).numCurrZones = zl.length ∧
    (∀ x, x ≠ o → (_setObjectZoneList s o zl).objs x = s.objs x) ∧
    (_setObjectZoneList s o zl).objectZoneLists =
      s.objectZoneLists ++ [(s.nextListHandle, zl)] ∧
    (_setObjectZoneList s o zl).nextListHandle = s.nextListHandle + 1 := by
  unfold _setObjectZoneList
  dsimp only
  rw [if_pos h0]
  refine ⟨?_, ?_, ?_, rfl, rfl⟩
  · show (updFn _ o _ o).zoneListHandle = _
    rw [updFn_same]
    show (updFn s.objs o _ o).zoneListHandle = _
    rw [updFn_same]
  · show (updFn _ o _ o).numCurrZones = _
    rw [updFn_same]
  · intro x hx
    show updFn _ o _ x = _
    rw [updFn_ne _ _ _ _ hx]
    show updFn s.objs o _ x = _
    rw [updFn_ne _ _ _ _ hx]

theorem zoneInsertCommit_fresh (s : MgrState) (o : ObjId) (acc : InsertAcc)
    (h0 : (s.objs o).zoneListHandle = 0)
    (hlen : 0 < acc.globalZones.length) :
    ((_zoneInsertCommit s o acc).objs o).zoneListHandle = s.nextListHandle ∧
    ((_zoneInsertCommit s o acc).objs o).numCurrZones = acc.globalZones.length ∧
    (_zoneInsertCommit s o acc).objectZoneLists =
      s.objectZoneLists ++ [(s.nextListHandle, acc.globalZones)] ∧
    (_zoneInsertCommit s o acc).nextListHandle = s.nextListHandle + 1 := by
  unfold _zoneInsertCommit
  dsimp only
  rw [if_pos hlen]
  have hset := setObjectZoneList_fresh s o acc.globalZones h0
  have hfold := tblframe_foldl
    (fun s r =>
      if 0 < r.numZones then
        _onZoneAddObject s ((acc.globalZones.drop r.startZone).take r.numZones) o
      else s)
    (fun s r => by
      dsimp only
      split
      · exact onZoneAddObject_tblframe _ _ _
      · exact tblframe_refl _)
    acc.records (_setObjectZoneList s o acc.globalZones)
  refine ⟨?_, ?_, ?_, ?_⟩
  · show (updFn _ o _ o).zoneListHandle = _
    rw [updFn_same]
    show ((_ : MgrState).objs o).zoneListHandle = _
    rw [hfold.1]
    exact hset.1
  · show (updFn _ o _ o).numCurrZones = _
    rw [updFn_same]
    show ((_ : MgrState).objs o).numCurrZones = _
    rw [hfold.1]
    exact hset.2.1
  · show ((_ : MgrState)).objectZoneLists = _
    rw [hfold.2.1]
    exact hset.2.2.2.1
  · show ((_ : MgrState)).nextListHandle = _
    rw [hfold.2.2]
    exact hset.2.2.2.2

theorem insertStep_invariant (f : ObjId → ObjState) (env : Env) (o : ObjId)
    (acc : InsertAcc) (e : ObjId)
    (he : (f e).isZoneSpaceClass = true → e ≠ o →
      0 < (env.getOverlappingZonesObj e o).1.length ∨
        (env.getOverlappingZonesObj e o).2 = true)
    (hP : acc.remainingZones + acc.globalZones.length = MaxObjectZones ∧
      (acc.outsideIncluded = false → 0 < acc.globalZones.length)) :
    (insertStep f env o acc e).remainingZones +
      (insertStep f env o acc e).globalZones.length = MaxObjectZones ∧
    ((insertStep f env o acc e).outsideIncluded = false →
      0 < (insertStep f env o acc e).globalZones.length) := by
  unfold insertStep
  by_cases hcls : (f e).isZoneSpaceClass
  · by_cases heo : e = o
    · simp only [hcls, Bool.not_true, Bool.false_eq_true, if_false, if_pos heo]
      exact hP
    · simp only [hcls, Bool.not_true, Bool.false_eq_true, if_false, if_neg heo]
      have hlen : (((env.getOverlappingZonesObj e o).1).take
          (min acc.remainingZones (env.getOverlappingZonesObj e o).1.length)).length =
          min acc.remainingZones (env.getOverlappingZonesObj e o).1.length := by
        rw [List.length_take]
        omega
      split
      next hn =>
        constructor
        · simp only [List.length_append, hlen]
          omega
        · intro _
          simp only [List.length_append, hlen]
          omega
      next hn =>
        constructor
        · exact hP.1
        · intro hout
          simp only [Bool.and_eq_false_iff] at hout
          rcases hout with hout | hout
          · exact hP.2 hout
          · -- the owner reported no outside overlap, so it reported zones;
            -- since its contribution clamped to zero, the capacity is full
            rcases he hcls heo with hz | hz
            · have : min acc.remainingZones (env.getOverlappingZonesObj e o).1.length = 0 := by
                omega
              have hrem : acc.remainingZones = 0 := by omega
              have := hP.1
              rw [hrem] at this
              simp only [MaxObjectZones] at this ⊢
              omega
            · rw [hz] at hout
              simp at hout
  · simp only [hcls]
    exact hP

theorem insertLoop_invariant (s : MgrState) (env : Env) (o : ObjId) (query : List ObjId)
    (hc : ∀ e ∈ query, (s.objs e).isZoneSpaceClass = true → e ≠ o →
      0 < (env.getOverlappingZonesObj e o).1.length ∨
        (env.getOverlappingZonesObj e o).2 = true) :
    (insertLoopAcc s env o query).remainingZones +
      (insertLoopAcc s env o query).globalZones.length = MaxObjectZones ∧
    ((insertLoopAcc s env o query).outsideIncluded = false →
      0 < (insertLoopAcc s env o query).globalZones.length) := by
  unfold insertLoopAcc
  have hgen : ∀ (l : List ObjId) (acc : InsertAcc),
      (∀ e ∈ l, (s.objs e).isZoneSpaceClass = true → e ≠ o →
        0 < (env.getOverlappingZonesObj e o).1.length ∨
          (env.getOverlappingZonesObj e o).2 = true) →
      (acc.remainingZones + acc.globalZones.length = MaxObjectZones ∧
        (acc.outsideIncluded = false → 0 < acc.globalZones.length)) →
      ((l.foldl (insertStep s.objs env o) acc).remainingZones +
        (l.foldl (insertStep s.objs env o) acc).globalZones.length = MaxObjectZones ∧
      ((l.foldl (insertStep s.objs env o) acc).outsideIncluded = false →
        0 < (l.foldl (insertStep s.objs env o) acc).globalZones.length)) := by
    intro l
    induction l with
    | nil => intro acc _ hP; exact hP
    | cons e rest ih =>
      intro acc hcl hP
      exact ih _ (fun x hx => hcl x (List.mem_cons_of_mem _ hx))
        (insertStep_invariant s.objs env o acc e (hcl e (List.mem_cons_self _ _)) hP)
  exact hgen query insertAcc0 hc ⟨by simp [insertAcc0], by simp [insertAcc0]⟩

theorem insertFinalAcc_globalZones (s : MgrState) (env : Env) (o : ObjId)
    (query : List ObjId) :
    (insertFinalAcc s env o query).globalZones =
      (insertBaseAcc s env o query).globalZones ++
        (if insertRootCond s env o query then [RootZoneId] else []) := by
  unfold insertFinalAcc
  split
  · rfl
  · simp

theorem insertFinalAcc_len_pos (s : MgrState) (env : Env) (o : ObjId) (query : List ObjId)
    (hc : ∀ e ∈ query, (s.objs e).isZoneSpaceClass = true → e ≠ o →
      0 < (env.getOverlappingZonesObj e o).1.length ∨
        (env.getOverlappingZonesObj e o).2 = true) :
    0 < (insertFinalAcc s env o query).globalZones.length := by
  rw [insertFinalAcc_globalZones]
  by_cases hrc : insertRootCond s env o query = true
  · simp [hrc]
  · have hrc2 : insertRootCond s env o query = false := by simpa using hrc
    simp only [hrc2, Bool.false_eq_true, if_false, List.append_nil]
    have hoo : outsideOnlyB s o = false := by
      unfold insertRootCond at hrc2
      rcases Bool.or_eq_false_iff.mp hrc2 with ⟨h1, _⟩
      exact h1
    have hbase : insertBaseAcc s env o query = insertLoopAcc s env o query := by
      unfold insertBaseAcc
      rw [hoo]
      simp
    rw [hbase]
    have hinv := insertLoop_invariant s env o query hc
    unfold insertRootCond at hrc2
    rw [hbase] at hrc2
    rcases Bool.or_eq_false_iff.mp hrc2 with ⟨_, h2⟩
    rcases Bool.and_eq_false_iff.mp h2 with hout | hrem
    · exact hinv.2 hout
    · have : ¬ 0 < (insertLoopAcc s env o query).remainingZones := by
        simpa using hrem
      have h1 := hinv.1
      simp only [MaxObjectZones] at h1
      omega

theorem zoneRemove_spec (t : MgrState) (o : ObjId) (b : Bool)
    (hh : ¬(t.objs o).zoneListHandle = 0) :
    ((_zoneRemove t o b).objs o).zoneListHandle = 0 ∧
    ((_zoneRemove t o b).objs o).numCurrZones = 0 ∧
    (_zoneRemove t o b).objectZoneLists =
      freeListT t.objectZoneLists ((t.objs o).zoneListHandle) := by
  unfold _zoneRemove
  dsimp only
  rw [if_neg hh]
  have hfold := tblframe_foldl
    (fun s z => match getZoneOwner s z with
      | some w => _onZoneRemoveObject s w o
      | none => s)
    (fun s z => by
      dsimp only
      split
      · exact onZoneRemoveObject_tblframe _ _ _
      · exact tblframe_refl _)
    (getValuesT t.objectZoneLists (t.objs o).zoneListHandle) t
  refine ⟨?_, ?_, ?_⟩
  · show (updFn _ o _ o).zoneListHandle = 0
    rw [updFn_same]
  · show (updFn _ o _ o).numCurrZones = 0
    rw [updFn_same]
  · show freeListT ((_ : MgrState)).objectZoneLists _ = _
    rw [hfold.2.1]

/-- C9: inserting an object through `_zoneInsert` and then immediately
removing it through `_zoneRemove` restores its occupancy count to 0 and
frees its membership-table handle (both back to the Unzoned state, and the
membership table returns to its prior contents); `_zoneRemove` on an
already-Unzoned object (handle 0) is a no-op.  The hypotheses are the
call-site preconditions: the object starts Unzoned, the fresh handle is
nonzero and unused, and each queried owner honours the
`getOverlappingZones` contract asserted at line 648 (it reports at least one
zone or the outside-overlap flag). -/
theorem zoneInsert_zoneRemove_roundtrip (s : MgrState) (env : Env) (o : ObjId)
    (q : List ObjId) (qi : Bool)
    (h0 : (s.objs o).zoneListHandle = 0)
    (hnz : 0 < s.nextListHandle)
    (hk : ∀ p ∈ s.objectZoneLists, p.1 ≠ s.nextListHandle)
    (hc : ∀ e ∈ insertQuery s env o q qi, (s.objs e).isZoneSpaceClass = true → e ≠ o →
      0 < (env.getOverlappingZonesObj e o).1.length ∨
        (env.getOverlappingZonesObj e o).2 = true) :
    ((_zoneRemove (_zoneInsert s env o q qi) o true).objs o).zoneListHandle = 0 ∧
    ((_zoneRemove (_zoneInsert s env o q qi) o true).objs o).numCurrZones = 0 ∧
    (_zoneRemove (_zoneInsert s env o q qi) o true).objectZoneLists = s.objectZoneLists ∧
    (∀ b, _zoneRemove s o b = s) := by
  have hlen := insertFinalAcc_len_pos s env o (insertQuery s env o q qi) hc
  have hins := zoneInsertCommit_fresh s o
    (insertFinalAcc s env o (insertQuery s env o q qi)) h0 hlen
  have hEq : _zoneInsert s env o q qi =
      _zoneInsertCommit s o (insertFinalAcc s env o (insertQuery s env o q qi)) := rfl
  have hh : ¬((_zoneInsert s env o q qi).objs o).zoneListHandle = 0 := by
    rw [hEq, hins.1]
    omega
  have hrem := zoneRemove_spec (_zoneInsert s env o q qi) o true hh
  refine ⟨hrem.1, hrem.2.1, ?_, ?_⟩
  · rw [hrem.2.2, hEq, hins.1, hins.2.2.1]
    exact freeListT_append_fresh _ _ _ hk
  · intro b
    unfold _zoneRemove
    dsimp only
    rw [if_pos h0]

/-- C9 witness: the round trip at a concrete scene (root zone only, plain
object 10, empty container query). -/
theorem zoneInsert_zoneRemove_roundtrip_witness :
    ((_zoneRemove (_zoneInsert c9State nullEnv 10 [] false) 10 true).objs 10).zoneListHandle = 0 ∧
    ((_zoneRemove (_zoneInsert c9State nullEnv 10 [] false) 10 true).objs 10).numCurrZones = 0 ∧
    (_zoneRemove (_zoneInsert c9State nullEnv 10 [] false) 10 true).objectZoneLists =
      c9State.objectZoneLists ∧
    _zoneRemove c9State 10 true = c9State := by
  have h := zoneInsert_zoneRemove_roundtrip c9State nullEnv 10 [] false
    (by decide) (by decide) (by decide) (by decide)
  exact ⟨h.1, h.2.1, h.2.2.1, h.2.2.2 true⟩

/-- C10: for a plain scene object (no `ZoneObjectType` bit),
`registerObject` only marks the object dirty: when the dirty flag is unset
it appends the object to the plain-object dirty queue and sets the flag
(and when already dirty it does nothing at all); in either case the
object's membership-table handle, its occupancy count, every other
object's state, the membership table, every zone's object list, and the
zone-space dirty queue are unchanged - zone assignment happens only in a
later update pass. -/
theorem registerObject_frame (s : MgrState) (o : ObjId)
    (hplain : (s.objs o).zoneTypeMask = false) :
    ((s.objs o).zoneRefDirty = false →
      registerObject s o = { s with
        dirtyObjects := s.dirtyObjects ++ [o],
        objs := updFn s.objs o { s.objs o with zoneRefDirty := true } }) ∧
    ((s.objs o).zoneRefDirty = true → registerObject s o = s) ∧
    ((registerObject s o).objs o).zoneListHandle = (s.objs o).zoneListHandle ∧
    ((registerObject s o).objs o).numCurrZones = (s.objs o).numCurrZones ∧
    (∀ x, x ≠ o → (registerObject s o).objs x = s.objs x) ∧
    (registerObject s o).objectZoneLists = s.objectZoneLists ∧
    (registerObject s o).zoneLists = s.zoneLists ∧
    (registerObject s o).dirtyZoneSpaces = s.dirtyZoneSpaces := by
  have hA : (s.objs o).zoneRefDirty = false →
      registerObject s o = { s with
        dirtyObjects := s.dirtyObjects ++ [o],
        objs := updFn s.objs o { s.objs o with zoneRefDirty := true } } := by
    intro h
    unfold registerObject notifyObjectChanged
    simp [h, hplain]
  have hB : (s.objs o).zoneRefDirty = true → registerObject s o = s := by
    intro h
    unfold registerObject notifyObjectChanged
    simp [h]
  refine ⟨hA, hB, ?_, ?_, ?_, ?_, ?_, ?_⟩
  · cases hd : (s.objs o).zoneRefDirty
    · rw [hA hd]; simp [updFn]
    · rw [hB hd]
  · cases hd : (s.objs o).zoneRefDirty
    · rw [hA hd]; simp [updFn]
    · rw [hB hd]
  · intro x hx
    cases hd : (s.objs o).zoneRefDirty
    · rw [hA hd]; simp [updFn, hx]
    · rw [hB hd]
  · cases hd : (s.objs o).zoneRefDirty
    · rw [hA hd]
    · rw [hB hd]
  · cases hd : (s.objs o).zoneRefDirty
    · rw [hA hd]
    · rw [hB hd]
  · cases hd : (s.objs o).zoneRefDirty
    · rw [hA hd]
    · rw [hB hd]

/-- C10 witness: registering the plain object 10 in the root-only scene
appends it to the plain-object dirty queue and sets its flag. -/
theorem registerObject_frame_witness :
    registerObject c9State 10 = { c9State with
      dirtyObjects := c9State.dirtyObjects ++ [10],
      objs := updFn c9State.objs 10 { c9State.objs 10 with zoneRefDirty := true } } :=
  (registerObject_frame c9State 10 (by decide)).1 (by decide)

/-! ## findZone and findZones lemmas -/

theorem findZoneLoop_spec (f : ObjId → ObjState) (env : Env) (p : Nat) (l : List ObjId) :
    (findZoneLoop f env p l = none →
      ∀ x ∈ l, (f x).isZoneSpaceClass = true → env.getPointZone x p = none) ∧
    (∀ e z, findZoneLoop f env p l = some (e, z) →
      ∃ l1 l2, l = l1 ++ e :: l2 ∧ (f e).isZoneSpaceClass = true ∧
        env.getPointZone e p = some z ∧
        (∀ x ∈ l1, (f x).isZoneSpaceClass = true → env.getPointZone x p = none)) := by
  induction l with
  | nil =>
    constructor
    · intro _ x hx; simp at hx
    · intro e z h; simp [findZoneLoop] at h
  | cons a rest ih =>
    constructor
    · intro h x hx hcls
      unfold findZoneLoop at h
      by_cases ha : (f a).isZoneSpaceClass
      · rw [if_pos ha] at h
        match hp : env.getPointZone a p with
        | some z => rw [hp] at h; simp at h
        | none =>
          rw [hp] at h
          rcases List.mem_cons.mp hx with rfl | hx
          · exact hp
          · exact ih.1 h x hx hcls
      · rw [if_neg ha] at h
        rcases List.mem_cons.mp hx with rfl | hx
        · exact absurd hcls (by simpa using ha)
        · exact ih.1 h x hx hcls
    · intro e z h
      unfold findZoneLoop at h
      by_cases ha : (f a).isZoneSpaceClass
      · rw [if_pos ha] at h
        match hp : env.getPointZone a p with
        | some z2 =>
          rw [hp] at h
          simp only [Option.some.injEq, Prod.mk.injEq] at h
          refine ⟨[], rest, ?_, ?_, ?_, ?_⟩
          · rw [h.1]; simp
          · rw [← h.1]; exact ha
          · rw [← h.1, ← h.2]; exact hp
          · intro x hx; simp at hx
        | none =>
          rw [hp] at h
          obtain ⟨l1, l2, hl, hcls, hpz, hnone⟩ := ih.2 e z h
          refine ⟨a :: l1, l2, by rw [hl, List.cons_append], hcls, hpz, ?_⟩
          intro x hx hxc
          rcases List.mem_cons.mp hx with rfl | hx
          · exact hp
          · exact hnone x hx hxc
      · rw [if_neg ha] at h
        obtain ⟨l1, l2, hl, hcls, hpz, hnone⟩ := ih.2 e z h
        refine ⟨a :: l1, l2, by rw [hl, List.cons_append], hcls, hpz, ?_⟩
        intro x hx hxc
        rcases List.mem_cons.mp hx with rfl | hx
        · exact absurd hxc (by simpa using ha)
        · exact hnone x hx hxc

/-- C7: `findZone` never returns an invalid owner or zone: with exactly one
active zone it returns the root zone with id 0 immediately; otherwise it
returns the first queried zone space whose point-containment test accepts
the point (with that accepted, hence valid, zone id) - in particular, as
soon as ANY queried zone space accepts the point, the result is such a
first acceptor, never the root fallback - and when no queried zone space
accepts the point it falls back to the root zone with id 0. -/
theorem findZone_valid (s : MgrState) (env : Env) (p : Nat) :
    (s.numActiveZones = 1 → findZone s env p = (rootZoneObjId, RootZoneId)) ∧
    (findZone s env p = (rootZoneObjId, RootZoneId) ∨
      ∃ l1 e l2 z, env.findZoneSpaces (pointQueryBox p) = l1 ++ e :: l2 ∧
        (s.objs e).isZoneSpaceClass = true ∧ env.getPointZone e p = some z ∧
        (∀ x ∈ l1, (s.objs x).isZoneSpaceClass = true → env.getPointZone x p = none) ∧
        findZone s env p = (e, z)) ∧
    (s.numActiveZones ≠ 1 →
      ∀ a ∈ env.findZoneSpaces (pointQueryBox p),
        (s.objs a).isZoneSpaceClass = true →
        ∀ w, env.getPointZone a p = some w →
      ∃ l1 e l2 z, env.findZoneSpaces (pointQueryBox p) = l1 ++ e :: l2 ∧
        (s.objs e).isZoneSpaceClass = true ∧ env.getPointZone e p = some z ∧
        (∀ x ∈ l1, (s.objs x).isZoneSpaceClass = true → env.getPointZone x p = none) ∧
        findZone s env p = (e, z)) := by
  refine ⟨?_, ?_, ?_⟩
  · intro h1
    unfold findZone
    rw [if_pos h1]
  · by_cases h1 : s.numActiveZones = 1
    · left; unfold findZone; rw [if_pos h1]
    · match hr : findZoneLoop s.objs env p (env.findZoneSpaces (pointQueryBox p)) with
      | none =>
        left
        unfold findZone
        rw [if_neg h1, hr]
      | some (e, z) =>
        right
        obtain ⟨l1, l2, hl, hcls, hpz, hnone⟩ :=
          (findZoneLoop_spec s.objs env p (env.findZoneSpaces (pointQueryBox p))).2 e z hr
        refine ⟨l1, e, l2, z, hl, hcls, hpz, hnone, ?_⟩
        unfold findZone
        rw [if_neg h1, hr]
  · intro h1 a ha hacls w hw
    match hr : findZoneLoop s.objs env p (env.findZoneSpaces (pointQueryBox p)) with
    | none =>
      have hnone :=
        (findZoneLoop_spec s.objs env p (env.findZoneSpaces (pointQueryBox p))).1 hr a ha hacls
      rw [hnone] at hw
      exact Option.noConfusion hw
    | some (e, z) =>
      obtain ⟨l1, l2, hl, hcls, hpz, hnone⟩ :=
        (findZoneLoop_spec s.objs env p (env.findZoneSpaces (pointQueryBox p))).2 e z hr
      refine ⟨l1, e, l2, z, hl, hcls, hpz, hnone, ?_⟩
      unfold findZone
      rw [if_neg h1, hr]

/-- C7 witness: with only the root zone active, `findZone` returns the root
zone and id 0; and in a six-zone scene where queried owner 1 rejects point 3
and owner 2 accepts it in zone 4, the scan returns a first accepting owner
with its accepted zone id (not the root fallback). -/
theorem findZone_valid_witness :
    findZone (initStateWith cAllSpaces) c7Env 3 = (rootZoneObjId, RootZoneId) ∧
    (∃ l1 e l2 z, c7Env.findZoneSpaces (pointQueryBox 3) = l1 ++ e :: l2 ∧
      (c7State.objs e).isZoneSpaceClass = true ∧ c7Env.getPointZone e 3 = some z ∧
      (∀ x ∈ l1, (c7State.objs x).isZoneSpaceClass = true → c7Env.getPointZone x 3 = none) ∧
      findZone c7State c7Env 3 = (e, z)) :=
  ⟨(findZone_valid (initStateWith cAllSpaces) c7Env 3).1 (by decide),
   (findZone_valid c7State c7Env 3).2.2 (by decide) 2 (by decide) (by decide) 4 (by decide)⟩

theorem findZonesFold_char (f : ObjId → ObjState) (env : Env) (area : Box3F)
    (l : List ObjId) (acc : FindZonesAcc) :
    l.foldl (findZonesStep f env area) acc =
      ⟨acc.outsideIncluded || anyOutsideB f env area l,
       acc.numTotalZones + (reportedZones f env area l).length,
       acc.outZones ++ reportedZones f env area l⟩ := by
  induction l generalizing acc with
  | nil =>
    cases acc with
    | mk a b c => simp [reportedZones, anyOutsideB]
  | cons e rest ih =>
    by_cases hcls : (f e).isZoneSpaceClass
    · have hstep : findZonesStep f env area acc e =
          ⟨acc.outsideIncluded || (env.getOverlappingZonesArea e area).2,
           acc.numTotalZones + (env.getOverlappingZonesArea e area).1.length,
           acc.outZones ++ (env.getOverlappingZonesArea e area).1⟩ := by
        unfold findZonesStep
        rw [hcls]
        simp
      rw [List.foldl_cons, hstep, ih]
      simp only [reportedZones, anyOutsideB, hcls, if_true, FindZonesAcc.mk.injEq]
      refine ⟨?_, ?_, ?_⟩
      · rw [Bool.or_assoc]
      · rw [List.length_append]; omega
      · rw [List.append_assoc]
    · have hstep : findZonesStep f env area acc e = acc := by
        unfold findZonesStep
        simp [hcls]
      rw [List.foldl_cons, hstep, ih]
      simp [reportedZones, anyOutsideB, hcls]

theorem reportedZones_mem (f : ObjId → ObjState) (env : Env) (area : Box3F)
    (l : List ObjId) (z : ZoneId) (h : z ∈ reportedZones f env area l) :
    ∃ e ∈ l, (f e).isZoneSpaceClass = true ∧
      z ∈ (env.getOverlappingZonesArea e area).1 := by
  induction l with
  | nil => simp [reportedZones] at h
  | cons e rest ih =>
    unfold reportedZones at h
    rcases List.mem_append.mp h with h | h
    · by_cases hcls : (f e).isZoneSpaceClass
      · rw [if_pos hcls] at h
        exact ⟨e, List.mem_cons_self _ _, hcls, h⟩
      · rw [if_neg hcls] at h
        simp at h
    · obtain ⟨e2, he2, hc2, hz2⟩ := ih h
      exact ⟨e2, List.mem_cons_of_mem _ he2, hc2, hz2⟩

/-- C6: `findZones(area)` appends to the output exactly the aggregation of
all zone ids reported by the zone spaces of the container query, followed by
the root zone id exactly when some owner reported outside-overlap or no zone
was collected at all; the returned count equals the number of ids appended.
The hypothesis is the owner contract that zone spaces report only their own
(nonzero) zone ids. -/
theorem findZones_spec (s : MgrState) (env : Env) (area : Box3F) (prior : List ZoneId)
    (hz : ∀ e ∈ env.findZoneSpaces area, (s.objs e).isZoneSpaceClass = true →
      RootZoneId ∉ (env.getOverlappingZonesArea e area).1) :
    (findZones s env area prior).2.length =
      prior.length + (findZones s env area prior).1 ∧
    (findZones s env area prior).2 = prior ++
      (reportedZones s.objs env area (env.findZoneSpaces area) ++
        (if (anyOutsideB s.objs env area (env.findZoneSpaces area) = true ∨
            reportedZones s.objs env area (env.findZoneSpaces area) = [])
          then [RootZoneId] else [])) ∧
    (RootZoneId ∈ (findZones s env area prior).2.drop prior.length ↔
      (anyOutsideB s.objs env area (env.findZoneSpaces area) = true ∨
        reportedZones s.objs env area (env.findZoneSpaces area) = [])) := by
  have hchar := findZonesFold_char s.objs env area (env.findZoneSpaces area)
    ⟨false, 0, prior⟩
  have hfz : findZones s env area prior =
      (if (anyOutsideB s.objs env area (env.findZoneSpaces area) ||
          ((reportedZones s.objs env area (env.findZoneSpaces area)).length == 0)) = true
       then ((reportedZones s.objs env area (env.findZoneSpaces area)).length + 1,
         (prior ++ reportedZones s.objs env area (env.findZoneSpaces area)) ++ [RootZoneId])
       else ((reportedZones s.objs env area (env.findZoneSpaces area)).length,
         prior ++ reportedZones s.objs env area (env.findZoneSpaces area))) := by
    unfold findZones
    rw [hchar]
    simp only [Bool.false_or, Nat.zero_add]
  have hcondiff : (anyOutsideB s.objs env area (env.findZoneSpaces area) ||
      ((reportedZones s.objs env area (env.findZoneSpaces area)).length == 0)) = true ↔
      (anyOutsideB s.objs env area (env.findZoneSpaces area) = true ∨
        reportedZones s.objs env area (env.findZoneSpaces area) = []) := by
    rw [Bool.or_eq_true]
    constructor
    · rintro (h | h)
      · exact Or.inl h
      · exact Or.inr (List.length_eq_zero.mp (by simpa using h))
    · rintro (h | h)
      · exact Or.inl h
      · right
        simp [h]
  have hnotin : RootZoneId ∉ reportedZones s.objs env area (env.findZoneSpaces area) := by
    intro hmem
    obtain ⟨e, he, hc, hzin⟩ := reportedZones_mem s.objs env area _ _ hmem
    exact hz e he hc hzin
  by_cases hcond : (anyOutsideB s.objs env area (env.findZoneSpaces area) ||
      ((reportedZones s.objs env area (env.findZoneSpaces area)).length == 0)) = true
  · rw [hfz, if_pos hcond]
    have hc2 := hcondiff.mp hcond
    refine ⟨?_, ?_, ?_⟩
    · dsimp only
      simp only [List.length_append, List.length_cons, List.length_nil]
      omega
    · dsimp only
      rw [if_pos hc2, List.append_assoc]
    · dsimp only
      rw [List.append_assoc, List.drop_left]
      simp only [hc2, iff_true]
      exact List.mem_append.mpr (Or.inr (List.mem_singleton.mpr rfl))
  · rw [hfz, if_neg hcond]
    have hc2 : ¬(anyOutsideB s.objs env area (env.findZoneSpaces area) = true ∨
        reportedZones s.objs env area (env.findZoneSpaces area) = []) := by
      intro hx
      exact hcond (hcondiff.mpr hx)
    refine ⟨?_, ?_, ?_⟩
    · dsimp only
      simp only [List.length_append]
    · dsimp only
      rw [if_neg hc2, List.append_nil]
    · dsimp only
      rw [List.drop_left]
      simp only [hc2, iff_false]
      exact hnotin

/-- C6 witness: at a concrete query (owner 1 reports zone 1, owner 2 reports
zones 2,3 plus outside-overlap, prior output of length 1) the count equals
the number of appended ids. -/
theorem findZones_spec_witness :
    (findZones c7State c6Env [50] [99]).2.length =
      1 + (findZones c7State c6Env [50] [99]).1 :=
  (findZones_spec c7State c6Env [50] [99] (by decide)).1

/-! ## Insert outdoor-rule lemmas -/

theorem insertStep_globalZones_mem (f : ObjId → ObjState) (env : Env) (o : ObjId)
    (acc : InsertAcc) (e : ObjId) (z : ZoneId)
    (h : z ∈ (insertStep f env o acc e).globalZones) :
    z ∈ acc.globalZones ∨ ((f e).isZoneSpaceClass = true ∧ e ≠ o ∧
      z ∈ (env.getOverlappingZonesObj e o).1) := by
  by_cases hcls : (f e).isZoneSpaceClass
  · by_cases heo : e = o
    · have hstep : insertStep f env o acc e = acc := by
        unfold insertStep
        simp [hcls, heo]
      rw [hstep] at h
      exact Or.inl h
    · unfold insertStep at h
      simp only [hcls, Bool.not_true, Bool.false_eq_true, if_false, if_neg heo] at h
      split at h
      · simp only [List.mem_append] at h
        rcases h with h | h
        · exact Or.inl h
        · exact Or.inr ⟨hcls, heo, List.mem_of_mem_take h⟩
      · exact Or.inl h
  · have hstep : insertStep f env o acc e = acc := by
      unfold insertStep
      simp [hcls]
    rw [hstep] at h
    exact Or.inl h

theorem insertLoop_globalZones_mem (f : ObjId → ObjState) (env : Env) (o : ObjId)
    (l : List ObjId) (acc : InsertAcc) (z : ZoneId)
    (h : z ∈ (l.foldl (insertStep f env o) acc).globalZones) :
    z ∈ acc.globalZones ∨ ∃ e ∈ l, (f e).isZoneSpaceClass = true ∧ e ≠ o ∧
      z ∈ (env.getOverlappingZonesObj e o).1 := by
  induction l generalizing acc with
  | nil => exact Or.inl h
  | cons e rest ih =>
    rcases ih (insertStep f env o acc e) h with h2 | h2
    · rcases insertStep_globalZones_mem f env o acc e z h2 with h3 | h3
      · exact Or.inl h3
      · exact Or.inr ⟨e, List.mem_cons_self _ _, h3⟩
    · obtain ⟨e2, he2, h3⟩ := h2
      exact Or.inr ⟨e2, List.mem_cons_of_mem _ he2, h3⟩

theorem insertLoop_outside (f : ObjId → ObjState) (env : Env) (o : ObjId)
    (l : List ObjId) (acc : InsertAcc) :
    (l.foldl (insertStep f env o) acc).outsideIncluded =
      (acc.outsideIncluded && allOwnersOutsideB f env o l) := by
  induction l generalizing acc with
  | nil => simp [allOwnersOutsideB]
  | cons e rest ih =>
    rw [List.foldl_cons, ih]
    have hall : allOwnersOutsideB f env o (e :: rest) =
        ((if (f e).isZoneSpaceClass && !(e == o) then (env.getOverlappingZonesObj e o).2
          else true) && allOwnersOutsideB f env o rest) := by
      simp [allOwnersOutsideB]
    rw [hall]
    by_cases hcls : (f e).isZoneSpaceClass
    · by_cases heo : e = o
      · have hstep : (insertStep f env o acc e).outsideIncluded = acc.outsideIncluded := by
          unfold insertStep
          simp [hcls, heo]
        rw [hstep]
        simp [hcls, heo]
      · have hstep : (insertStep f env o acc e).outsideIncluded =
            (acc.outsideIncluded && (env.getOverlappingZonesObj e o).2) := by
          unfold insertStep
          simp only [hcls, Bool.not_true, Bool.false_eq_true, if_false, if_neg heo]
          split <;> rfl
        rw [hstep]
        have : (e == o) = false := by simpa using heo
        simp [hcls, this, Bool.and_assoc]
    · have hstep : (insertStep f env o acc e).outsideIncluded = acc.outsideIncluded := by
        unfold insertStep
        simp [hcls]
      rw [hstep]
      simp [hcls]

/-- C4 (amended): for an object not forced outdoor-only, `_zoneInsert`
commits exactly the owner loop's accumulated zones followed by the Root
zone id when every processed owner reported outdoor overlap AND spare
per-object zone capacity remains; hence Root is in the final membership iff
all overlapping owners reported outdoor overlap (which covers the no-owner
case, where the conjunction is vacuous) and fewer than `MaxObjectZones`
zones were accumulated.  Hypotheses: fresh object (handle 0, unused fresh
handle), the line-648 owner contract, and owners never reporting the Root
id as one of their own zones. -/
theorem zoneInsert_outdoor_rule (s : MgrState) (env : Env) (o : ObjId)
    (q : List ObjId) (qi : Bool)
    (hoo : outsideOnlyB s o = false)
    (h0 : (s.objs o).zoneListHandle = 0)
    (hk : ∀ p ∈ s.objectZoneLists, p.1 ≠ s.nextListHandle)
    (hc : ∀ e ∈ insertQuery s env o q qi, (s.objs e).isZoneSpaceClass = true → e ≠ o →
      0 < (env.getOverlappingZonesObj e o).1.length ∨
        (env.getOverlappingZonesObj e o).2 = true)
    (hz : ∀ e ∈ insertQuery s env o q qi, (s.objs e).isZoneSpaceClass = true → e ≠ o →
      RootZoneId ∉ (env.getOverlappingZonesObj e o).1) :
    (getValuesT (_zoneInsert s env o q qi).objectZoneLists
        (((_zoneInsert s env o q qi).objs o).zoneListHandle) =
      (insertLoopAcc s env o (insertQuery s env o q qi)).globalZones ++
        (if ((insertLoopAcc s env o (insertQuery s env o q qi)).outsideIncluded &&
            decide (0 < (insertLoopAcc s env o (insertQuery s env o q qi)).remainingZones))
            = true
          then [RootZoneId] else [])) ∧
    (RootZoneId ∈ getValuesT (_zoneInsert s env o q qi).objectZoneLists
        (((_zoneInsert s env o q qi).objs o).zoneListHandle) ↔
      ((insertLoopAcc s env o (insertQuery s env o q qi)).outsideIncluded = true ∧
        (insertLoopAcc s env o (insertQuery s env o q qi)).globalZones.length <
          MaxObjectZones)) ∧
    ((insertLoopAcc s env o (insertQuery s env o q qi)).outsideIncluded =
      allOwnersOutsideB s.objs env o (insertQuery s env o q qi)) := by
  have hlen := insertFinalAcc_len_pos s env o (insertQuery s env o q qi) hc
  have hins := zoneInsertCommit_fresh s o
    (insertFinalAcc s env o (insertQuery s env o q qi)) h0 hlen
  have hEq : _zoneInsert s env o q qi =
      _zoneInsertCommit s o (insertFinalAcc s env o (insertQuery s env o q qi)) := rfl
  have hbase : insertBaseAcc s env o (insertQuery s env o q qi) =
      insertLoopAcc s env o (insertQuery s env o q qi) := by
    unfold insertBaseAcc
    rw [hoo]
    simp
  have hrc : insertRootCond s env o (insertQuery s env o q qi) =
      ((insertLoopAcc s env o (insertQuery s env o q qi)).outsideIncluded &&
        decide (0 < (insertLoopAcc s env o (insertQuery s env o q qi)).remainingZones)) := by
    unfold insertRootCond
    rw [hoo, hbase]
    simp
  have hmemlist : getValuesT (_zoneInsert s env o q qi).objectZoneLists
      (((_zoneInsert s env o q qi).objs o).zoneListHandle) =
      (insertFinalAcc s env o (insertQuery s env o q qi)).globalZones := by
    rw [hEq, hins.1, hins.2.2.1]
    exact getValuesT_append_fresh _ _ _ hk
  have hA : getValuesT (_zoneInsert s env o q qi).objectZoneLists
      (((_zoneInsert s env o q qi).objs o).zoneListHandle) =
      (insertLoopAcc s env o (insertQuery s env o q qi)).globalZones ++
        (if ((insertLoopAcc s env o (insertQuery s env o q qi)).outsideIncluded &&
            decide (0 < (insertLoopAcc s env o (insertQuery s env o q qi)).remainingZones))
            = true
          then [RootZoneId] else []) := by
    rw [hmemlist, insertFinalAcc_globalZones, hbase, hrc]
  have hnotin : RootZoneId ∉ (insertLoopAcc s env o (insertQuery s env o q qi)).globalZones := by
    intro hmem
    rcases insertLoop_globalZones_mem s.objs env o (insertQuery s env o q qi) insertAcc0
      RootZoneId hmem with h | h
    · simp [insertAcc0] at h
    · obtain ⟨e, he, hcls, heo, hzin⟩ := h
      exact hz e he hcls heo hzin
  have hinv := insertLoop_invariant s env o (insertQuery s env o q qi) hc
  refine ⟨hA, ?_, ?_⟩
  · rw [hA]
    constructor
    · intro hmem
      rcases List.mem_append.mp hmem with h | h
      · exact absurd h hnotin
      · split at h
        next hcond =>
          rw [Bool.and_eq_true] at hcond
          obtain ⟨hout, hrem⟩ := hcond
          refine ⟨hout, ?_⟩
          have := hinv.1
          have hrem2 := of_decide_eq_true hrem
          omega
        next hcond => simp at h
    · rintro ⟨hout, hlen2⟩
      have hrem : 0 < (insertLoopAcc s env o (insertQuery s env o q qi)).remainingZones := by
        have := hinv.1
        omega
      have hcond : ((insertLoopAcc s env o (insertQuery s env o q qi)).outsideIncluded &&
          decide (0 < (insertLoopAcc s env o (insertQuery s env o q qi)).remainingZones))
          = true := by
        rw [hout, decide_eq_true hrem]
        rfl
      rw [if_pos hcond]
      exact List.mem_append.mpr (Or.inr (List.mem_singleton.mpr rfl))
  · unfold insertLoopAcc
    rw [insertLoop_outside]
    simp [insertAcc0]

set_option maxRecDepth 100000 in
/-- C4 counterexample: with a single overlapping owner that reports
`MaxObjectZones` zones AND outdoor overlap for a not-outdoor-only object,
the final membership does not contain the Root zone id, although every
overlapping owner reported outdoor overlap - refuting the claimed
"if and only if". -/
theorem zoneInsert_outdoor_rule_counterexample :
    outsideOnlyB c4CapState 10 = false ∧
    insertQuery c4CapState c4CapEnv 10 [] false = [1] ∧
    (c4CapEnv.getOverlappingZonesObj 1 10).2 = true ∧
    allOwnersOutsideB c4CapState.objs c4CapEnv 10
      (insertQuery c4CapState c4CapEnv 10 [] false) = true ∧
    0 < (c4CapResult.objs 10).numCurrZones ∧
    RootZoneId ∉ getValuesT c4CapResult.objectZoneLists
      ((c4CapResult.objs 10).zoneListHandle) := by
  decide

/-- C4 witness: scenario E - two owners, outside-overlap flags true and
false: the final membership is exactly both owners' zones, Root excluded;
with both flags true, Root is included. -/
theorem zoneInsert_outdoor_rule_witness :
    getValuesT (_zoneInsert c4eState c4eEnvTF 10 [] false).objectZoneLists
        (((_zoneInsert c4eState c4eEnvTF 10 [] false).objs 10).zoneListHandle) = [1, 2] ∧
    RootZoneId ∈ getValuesT (_zoneInsert c4eState c4eEnvTT 10 [] false).objectZoneLists
        (((_zoneInsert c4eState c4eEnvTT 10 [] false).objs 10).zoneListHandle) := by
  constructor
  · rw [(zoneInsert_outdoor_rule c4eState c4eEnvTF 10 [] false
      (by decide) (by decide) (by decide) (by decide) (by decide)).1]
    decide
  · rw [(zoneInsert_outdoor_rule c4eState c4eEnvTT 10 [] false
      (by decide) (by decide) (by decide) (by decide) (by decide)).1]
    decide

set_option maxRecDepth 100000 in
/-- C1: at the failing input (root zone, owner 1 with zones `[1,3)`, owner 2
with zone 3 containing object 10; owner 1 unregistered; a new registration
triggers compaction), the walk relocates owner 2's list from old id 3 to
new id 1 and `numTotalAllocatedZones` equals `numActiveZones` afterwards -
but object 10's membership-table entry still holds the OLD zone id 3 and
not the new id 1, because the source iterates `mZoneLists[newZoneId]` (the
pre-compaction list at the NEW index, here the freed list of owner 1)
instead of the relocated list `mZoneLists[oldZoneId]`.  The state violates
the membership-symmetry assertion of `verifyState` (line 897), which held
before the compaction. -/
theorem compaction_stale_membership :
    c1Final.numTotalAllocatedZones = 3 ∧
    c1Final.numActiveZones = 3 ∧
    (c1Final.objs 2).zoneRangeStart = some 1 ∧
    c1Final.zoneLists.getD 1 none = some [10] ∧
    (c1Final.objs 10).zoneListHandle = 1 ∧
    getValuesT c1Final.objectZoneLists 1 = [3] ∧
    containsBinItemT c1Final.objectZoneLists ((c1Final.objs 10).zoneListHandle) 1 = false ∧
    verifyMembershipCheck c1Final = false ∧
    verifyMembershipCheck c1Inserted = true := by
  decide

/-! ## Unregistration and compaction-guard lemmas -/

theorem unregister_no_compaction (s : MgrState) (o : ObjId) :
    (unregisterZones s o).numTotalAllocatedZones = s.numTotalAllocatedZones ∧
    (∀ x, x ≠ o →
      ((unregisterZones s o).objs x).zoneRangeStart = (s.objs x).zoneRangeStart ∧
      ((unregisterZones s o).objs x).numZones = (s.objs x).numZones) := by
  cases hidx : _getZoneSpaceIndex s o with
  | none =>
    simp only [unregisterZones, hidx]
    simp
  | some idx =>
    simp only [unregisterZones, hidx]
    have hfold : AllocFrame s ((List.range (s.objs o).numZones).foldl (fun u j =>
        { _clearZoneList u ((s.objs o).zoneRangeStart.getD 0 + j) with
          zoneLists := (_clearZoneList u ((s.objs o).zoneRangeStart.getD 0 + j)).zoneLists.set
            ((s.objs o).zoneRangeStart.getD 0 + j) (some []) }) s) := by
      apply allocframe_foldl
      intro u j
      exact allocframe_trans (clearZoneList_allocframe u _)
        ⟨rfl, rfl, rfl, fun _ => rfl, fun _ => rfl⟩
    refine ⟨hfold.2.1, fun x hx => ?_⟩
    have h1 := hfold.2.2.2.1 x
    simp only [rangeData, Prod.mk.injEq] at h1
    constructor
    · show (updFn _ o _ x).zoneRangeStart = _
      rw [updFn_ne _ _ _ _ hx]
      exact h1.1
    · show (updFn _ o _ x).numZones = _
      rw [updFn_ne _ _ _ _ hx]
      exact h1.2

theorem compactZonesCheck_skip (s : MgrState)
    (h : ¬ 2 * s.numActiveZones ≤ s.numTotalAllocatedZones) :
    _compactZonesCheck s = s := by
  unfold _compactZonesCheck
  rw [if_pos (by omega)]

/-- C5: compaction is invoked only from the registration path - the
compaction check is a no-op exactly when active-count exceeds half of
allocated-count (the source guard `active > allocated / 2` is equivalent to
`¬ (2 * active ≤ allocated)`), and `unregisterZones` never compacts: it
leaves the allocated-count and every other owner's range untouched.  In
scenario C (unregistering a 12-zone owner leaving 10 active of 22
allocated), the holes persist after the unregistration, and the next
registration compacts (10 ≤ 22/2), re-basing the surviving owner. -/
theorem compaction_only_on_register :
    (∀ s : MgrState, ¬ 2 * s.numActiveZones ≤ s.numTotalAllocatedZones →
      _compactZonesCheck s = s) ∧
    (∀ (s : MgrState) (o : ObjId),
      (unregisterZones s o).numTotalAllocatedZones = s.numTotalAllocatedZones ∧
      (∀ x, x ≠ o →
        ((unregisterZones s o).objs x).zoneRangeStart = (s.objs x).zoneRangeStart ∧
        ((unregisterZones s o).objs x).numZones = (s.objs x).numZones)) ∧
    (c5Holes.numTotalAllocatedZones = 22 ∧ c5Holes.numActiveZones = 10 ∧
      (c5Holes.objs 2).zoneRangeStart = some 13 ∧ (c5Holes.objs 2).numZones = 9 ∧
      2 * c5Holes.numActiveZones ≤ c5Holes.numTotalAllocatedZones ∧
      c5After.numTotalAllocatedZones = 11 ∧ c5After.numActiveZones = 11 ∧
      (c5After.objs 2).zoneRangeStart = some 1 ∧
      (c5After.objs 3).zoneRangeStart = some 10) := by
  refine ⟨compactZonesCheck_skip, fun s o => unregister_no_compaction s o, ?_⟩
  decide

/-- C5 witness: a concrete state above the utilization threshold is left
untouched by the compaction check. -/
theorem compaction_only_on_register_witness :
    _compactZonesCheck c7State = c7State :=
  compaction_only_on_register.1 c7State (by decide)

/-! ## Compaction walk lemmas -/

theorem setRS_setRS (st : ObjState) (v1 v2 : Option Nat) :
    setRS (setRS st v1) v2 = setRS st v2 := rfl

theorem setRS_self (st : ObjState) : setRS st st.zoneRangeStart = st := rfl

theorem compactSpace_objs (orig : List (Option (List ObjId))) (acc : CompactAcc)
    (sp : ObjId) :
    (compactSpace orig acc sp).objs =
      updFn acc.objs sp (setRS (acc.objs sp) (some acc.nextZoneId)) := rfl

theorem compactSpace_nextZoneId (orig : List (Option (List ObjId))) (acc : CompactAcc)
    (sp : ObjId) :
    (compactSpace orig acc sp).nextZoneId =
      acc.nextZoneId + (acc.objs sp).numZones := rfl

theorem compactWalk_spec (orig : List (Option (List ObjId))) (l : List ObjId)
    (hnd : l.Nodup) (acc : CompactAcc) :
    (∀ x, x ∉ l → (l.foldl (compactSpace orig) acc).objs x = acc.objs x) ∧
    (∀ x, (l.foldl (compactSpace orig) acc).objs x =
      setRS (acc.objs x) (((l.foldl (compactSpace orig) acc).objs x).zoneRangeStart)) ∧
    (l.foldl (compactSpace orig) acc).nextZoneId =
      acc.nextZoneId + sumZones acc.objs l ∧
    exactChainB (l.foldl (compactSpace orig) acc).objs acc.nextZoneId l = true := by
  induction l generalizing acc with
  | nil =>
    refine ⟨fun x _ => rfl, fun x => (setRS_self _).symm, ?_, rfl⟩
    simp [sumZones]
  | cons sp rest ih =>
    have hsp : sp ∉ rest := (List.nodup_cons.mp hnd).1
    have hndr : rest.Nodup := (List.nodup_cons.mp hnd).2
    have ihr := ih hndr (compactSpace orig acc sp)
    rw [List.foldl_cons]
    have hobjs1 : (compactSpace orig acc sp).objs =
        updFn acc.objs sp (setRS (acc.objs sp) (some acc.nextZoneId)) :=
      compactSpace_objs orig acc sp
    refine ⟨?_, ?_, ?_, ?_⟩
    · intro x hx
      have hx1 : x ∉ rest := fun h => hx (List.mem_cons_of_mem _ h)
      have hx2 : x ≠ sp := fun h => hx (h ▸ List.mem_cons_self _ _)
      rw [ihr.1 x hx1, hobjs1, updFn_ne _ _ _ _ hx2]
    · intro x
      by_cases hx : x = sp
      · subst hx
        have h1 := ihr.2.1 x
        rw [hobjs1, updFn_same, setRS_setRS] at h1
        exact h1
      · have h1 := ihr.2.1 x
        rw [hobjs1, updFn_ne _ _ _ _ hx] at h1
        exact h1
    · rw [ihr.2.2.1, compactSpace_nextZoneId]
      have hsum : sumZones (compactSpace orig acc sp).objs rest = sumZones acc.objs rest := by
        apply sumZones_congrOn
        intro x hx
        have hxsp : x ≠ sp := by
          intro h
          rw [h] at hx
          exact hsp hx
        rw [hobjs1, updFn_ne _ _ _ _ hxsp]
      rw [hsum]
      have : sumZones acc.objs (sp :: rest) =
          (acc.objs sp).numZones + sumZones acc.objs rest := by
        simp [sumZones]
      omega
    · have hhead : (List.foldl (compactSpace orig) (compactSpace orig acc sp) rest).objs sp =
          setRS (acc.objs sp) (some acc.nextZoneId) := by
        rw [ihr.1 sp hsp, hobjs1, updFn_same]
      unfold exactChainB
      rw [Bool.and_eq_true]
      constructor
      · rw [hhead]
        simp [setRS]
      · have hnum : ((List.foldl (compactSpace orig) (compactSpace orig acc sp) rest).objs
            sp).numZones = (acc.objs sp).numZones := by
          rw [hhead]
          rfl
        rw [hnum]
        have := ihr.2.2.2
        rw [compactSpace_nextZoneId] at this
        exact this

/-! ## Invariant preservation -/

theorem rangeData_fields (st1 st2 : ObjState) (h : rangeData st1 = rangeData st2) :
    st1.zoneRangeStart = st2.zoneRangeStart ∧ st1.numZones = st2.numZones := by
  simp only [rangeData, Prod.mk.injEq] at h
  exact h

theorem ownerEnd_congr (f g : ObjId → ObjState) (o : ObjId)
    (h : rangeData (f o) = rangeData (g o)) :
    ownerStart f o = ownerStart g o ∧ ownerEnd f o = ownerEnd g o := by
  obtain ⟨h1, h2⟩ := rangeData_fields _ _ h
  constructor
  · simp only [ownerStart, h1]
  · simp only [ownerEnd, ownerStart, h1, h2]

theorem inv_of_allocFrame (s t : MgrState) (hInv : MgrInv s) (hf : AllocFrame s t) :
    MgrInv t := by
  obtain ⟨hzs, hal, hac, hrd, _⟩ := hf
  constructor
  · rw [hzs, chainB_congrOn t.objs s.objs s.zoneSpaces (fun o _ => hrd o)]
    exact hInv.chain
  · intro o ho
    rw [hzs] at ho
    rw [hal, (ownerEnd_congr t.objs s.objs o (hrd o)).2]
    exact hInv.ends o ho
  · rw [hzs, hac, sumZones_congrOn t.objs s.objs s.zoneSpaces
      (fun o _ => (rangeData_fields _ _ (hrd o)).2)]
    exact hInv.act
  · intro o ho
    rw [hzs] at ho
    rw [(rangeData_fields _ _ (hrd o)).1]
    exact hInv.ranges o ho
  · rw [hzs]
    exact hInv.nd

theorem compact_zoneSpaces (s : MgrState) :
    (_compactZonesCheck s).zoneSpaces = s.zoneSpaces := by
  unfold _compactZonesCheck
  split <;> rfl

theorem compact_cases (s : MgrState) (hInv : MgrInv s) :
    (_compactZonesCheck s = s) ∨
    ((_compactZonesCheck s).zoneSpaces = s.zoneSpaces ∧
      (_compactZonesCheck s).numActiveZones = s.numActiveZones ∧
      (_compactZonesCheck s).numTotalAllocatedZones = sumZones s.objs s.zoneSpaces ∧
      (∀ x, ((_compactZonesCheck s).objs x).numZones = (s.objs x).numZones) ∧
      (∀ x, ((_compactZonesCheck s).objs x).worldBox = (s.objs x).worldBox) ∧
      exactChainB (_compactZonesCheck s).objs 0 s.zoneSpaces = true) := by
  unfold _compactZonesCheck
  split
  · exact Or.inl rfl
  · right
    have hwalk := compactWalk_spec s.zoneLists s.zoneSpaces hInv.nd
      ⟨s.objs, s.objectZoneLists, List.replicate s.numActiveZones none, 0⟩
    refine ⟨rfl, rfl, ?_, ?_, ?_, ?_⟩
    · dsimp only
      rw [hwalk.2.2.1]
      simp [sumZones]
    · intro x
      dsimp only
      rw [hwalk.2.1 x]
      rfl
    · intro x
      dsimp only
      rw [hwalk.2.1 x]
      rfl
    · exact hwalk.2.2.2

theorem compact_inv (s : MgrState) (hInv : MgrInv s) :
    MgrInv (_compactZonesCheck s) := by
  rcases compact_cases s hInv with h | h
  · rw [h]; exact hInv
  · obtain ⟨hzs, hac, hal, hnz, _, hexact⟩ := h
    have hchain := exactChainB_chainB _ _ _ hexact
    have hsum : sumZones (_compactZonesCheck s).objs s.zoneSpaces =
        sumZones s.objs s.zoneSpaces :=
      sumZones_congrOn _ _ _ (fun o _ => hnz o)
    constructor
    · rw [hzs]; exact hchain
    · intro o ho
      rw [hzs] at ho
      have hend := exactChainB_ends _ _ _ hexact o ho
      rw [hsum] at hend
      rw [hal]
      simpa using hend
    · rw [hzs, hac, hsum]
      exact hInv.act
    · intro o ho
      rw [hzs] at ho
      exact exactChainB_isSome _ _ _ hexact o ho
    · rw [hzs]; exact hInv.nd

theorem compact_rootPinned (s : MgrState) (hInv : MgrInv s) (hrp : RootPinned s) :
    RootPinned (_compactZonesCheck s) := by
  rcases compact_cases s hInv with h | h
  · rw [h]; exact hrp
  · obtain ⟨hzs, _, _, hnz, _, hexact⟩ := h
    obtain ⟨hhead, hrs, hn⟩ := hrp
    obtain ⟨tail, htail⟩ : ∃ tail, s.zoneSpaces = rootZoneObjId :: tail := by
      cases hl : s.zoneSpaces with
      | nil => rw [hl] at hhead; simp at hhead
      | cons a t =>
        rw [hl] at hhead
        simp only [List.head?_cons, Option.some.injEq] at hhead
        exact ⟨t, by rw [hhead]⟩
    rw [htail] at hexact
    unfold exactChainB at hexact
    rw [Bool.and_eq_true] at hexact
    have hroot := hexact.1
    rw [beq_iff_eq] at hroot
    refine ⟨?_, hroot, ?_⟩
    · rw [hzs, htail]
      rfl
    · rw [hnz rootZoneObjId]
      exact hn

theorem sumZones_append (f : ObjId → ObjState) (l1 l2 : List ObjId) :
    sumZones f (l1 ++ l2) = sumZones f l1 + sumZones f l2 := by
  simp [sumZones]

theorem notifyObjectChanged_allocframe (s : MgrState) (o : ObjId) :
    AllocFrame s (notifyObjectChanged s o) := by
  unfold notifyObjectChanged
  dsimp only
  split
  · exact allocframe_refl s
  · split
    · split
      · exact allocframe_trans
          (⟨rfl, rfl, rfl, fun _ => rfl, fun _ => rfl⟩ :
            AllocFrame s { s with dirtyZoneSpaces := s.dirtyZoneSpaces ++ [o] })
          (allocframe_updObj _ o _ rfl rfl)
      · exact allocframe_updObj _ o _ rfl rfl
    · exact allocframe_trans
        (⟨rfl, rfl, rfl, fun _ => rfl, fun _ => rfl⟩ :
          AllocFrame s { s with dirtyObjects := s.dirtyObjects ++ [o] })
        (allocframe_updObj _ o _ rfl rfl)

theorem rootPinned_of_allocFrame (s t : MgrState) (hrp : RootPinned s)
    (hf : AllocFrame s t) : RootPinned t := by
  refine ⟨?_, ?_, ?_⟩
  · rw [hf.1]; exact hrp.1
  · rw [(rangeData_fields _ _ (hf.2.2.2.1 rootZoneObjId)).1]; exact hrp.2.1
  · rw [(rangeData_fields _ _ (hf.2.2.2.1 rootZoneObjId)).2]; exact hrp.2.2

theorem registerTail_allocframe (t1 : MgrState) (o : ObjId) :
    AllocFrame t1 (notifyObjectChanged
      { t1 with objs := updFn t1.objs o { t1.objs o with zoneRefDirty := false } } o) :=
  allocframe_trans
    (allocframe_updObj t1 o { t1.objs o with zoneRefDirty := false } rfl rfl)
    (notifyObjectChanged_allocframe _ o)

theorem registerZonesCore_inv (t : MgrState) (o : ObjId) (n : Nat)
    (hInvT : MgrInv t) (hnotT : o ∉ t.zoneSpaces) :
    MgrInv (registerZonesCore t o n) := by
  have hobjs : (registerZonesCore t o n).objs = updFn t.objs o { t.objs o with numZones := n, zoneRangeStart := some t.numTotalAllocatedZones, zoneTypeMask := true } := rfl
  have hcongr : ∀ x ∈ t.zoneSpaces,
      rangeData ((registerZonesCore t o n).objs x) = rangeData (t.objs x) := by
    intro x hx
    have hxo : x ≠ o := fun h => hnotT (h ▸ hx)
    rw [hobjs, updFn_ne _ _ _ _ hxo]
  have hstart : ownerStart (registerZonesCore t o n).objs o = t.numTotalAllocatedZones := by
    show ((registerZonesCore t o n).objs o).zoneRangeStart.getD 0 = _
    rw [hobjs, updFn_same]
    rfl
  constructor
  · show chainB (registerZonesCore t o n).objs 0 (t.zoneSpaces ++ [o]) = true
    apply chainB_append_one
    · rw [chainB_congrOn _ t.objs _ hcongr]
      exact hInvT.chain
    · intro x hx
      rw [(ownerEnd_congr _ t.objs x (hcongr x hx)).2, hstart]
      exact hInvT.ends x hx
    · rw [hstart]
      exact Nat.zero_le _
  · intro x hx
    show ownerEnd (registerZonesCore t o n).objs x ≤ t.numTotalAllocatedZones + n
    rcases List.mem_append.mp hx with hx | hx
    · rw [(ownerEnd_congr _ t.objs x (hcongr x hx)).2]
      have := hInvT.ends x hx
      omega
    · have hxo : x = o := by simpa using hx
      subst hxo
      show ownerStart _ x + ((registerZonesCore t x n).objs x).numZones ≤ _
      rw [hstart, hobjs, updFn_same]
  · show t.numActiveZones + n = sumZones (registerZonesCore t o n).objs (t.zoneSpaces ++ [o])
    rw [sumZones_append]
    have h1 : sumZones (registerZonesCore t o n).objs t.zoneSpaces =
        sumZones t.objs t.zoneSpaces :=
      sumZones_congrOn _ _ _ (fun x hx => (rangeData_fields _ _ (hcongr x hx)).2)
    have h2 : sumZones (registerZonesCore t o n).objs [o] = n := by
      show ((registerZonesCore t o n).objs o).numZones + 0 = n
      rw [hobjs, updFn_same]
      rfl
    rw [h1, h2, ← hInvT.act]
  · intro x hx
    rcases List.mem_append.mp hx with hx | hx
    · rw [(rangeData_fields _ _ (hcongr x hx)).1]
      exact hInvT.ranges x hx
    · have hxo : x = o := by simpa using hx
      subst hxo
      rw [hobjs, updFn_same]
      rfl
  · show (t.zoneSpaces ++ [o]).Nodup
    rw [List.nodup_append]
    refine ⟨hInvT.nd, by simp, ?_⟩
    intro a ha hao
    have : a = o := by simpa using hao
    exact hnotT (this ▸ ha)

theorem register_inv (s : MgrState) (o : ObjId) (n : Nat) (hInv : MgrInv s) :
    MgrInv (registerZones s o n) := by
  unfold registerZones
  split
  · exact hInv
  next hguard =>
    have hnone : _getZoneSpaceIndex s o = none := by
      cases h : _getZoneSpaceIndex s o with
      | none => rfl
      | some v => rw [h] at hguard; simp at hguard
    have hnot : o ∉ s.zoneSpaces := (zoneSpaceIndexAux_eq_none o s.zoneSpaces).mp hnone
    have hInvT : MgrInv (_compactZonesCheck s) := compact_inv s hInv
    have hnotT : o ∉ (_compactZonesCheck s).zoneSpaces := by
      rw [compact_zoneSpaces s]; exact hnot
    have hcore := registerZonesCore_inv (_compactZonesCheck s) o n hInvT hnotT
    dsimp only
    split
    · exact hcore
    · exact inv_of_allocFrame _ _ hcore (registerTail_allocframe _ o)

theorem registerZonesCore_rootPinned (t : MgrState) (o : ObjId) (n : Nat)
    (hrpT : RootPinned t) (ho : o ≠ rootZoneObjId) :
    RootPinned (registerZonesCore t o n) := by
  obtain ⟨hh, hrs, hn⟩ := hrpT
  obtain ⟨tail, htail⟩ : ∃ tail, t.zoneSpaces = rootZoneObjId :: tail := by
    cases hl : t.zoneSpaces with
    | nil => rw [hl] at hh; simp at hh
    | cons a tl =>
      rw [hl] at hh
      simp only [List.head?_cons, Option.some.injEq] at hh
      exact ⟨tl, by rw [hh]⟩
  have hne : rootZoneObjId ≠ o := fun h => ho h.symm
  refine ⟨?_, ?_, ?_⟩
  · show (t.zoneSpaces ++ [o]).head? = some rootZoneObjId
    rw [htail]
    rfl
  · show (updFn t.objs o { t.objs o with numZones := n, zoneRangeStart := some t.numTotalAllocatedZones, zoneTypeMask := true } rootZoneObjId).zoneRangeStart = some 0
    rw [updFn_ne _ _ _ _ hne]
    exact hrs
  · show (updFn t.objs o { t.objs o with numZones := n, zoneRangeStart := some t.numTotalAllocatedZones, zoneTypeMask := true } rootZoneObjId).numZones = 1
    rw [updFn_ne _ _ _ _ hne]
    exact hn

theorem register_rootPinned (s : MgrState) (o : ObjId) (n : Nat)
    (hInv : MgrInv s) (hrp : RootPinned s) :
    RootPinned (registerZones s o n) := by
  unfold registerZones
  split
  · exact hrp
  next hguard =>
    have hnone : _getZoneSpaceIndex s o = none := by
      cases h : _getZoneSpaceIndex s o with
      | none => rfl
      | some v => rw [h] at hguard; simp at hguard
    have hnot : o ∉ s.zoneSpaces := (zoneSpaceIndexAux_eq_none o s.zoneSpaces).mp hnone
    have hrootmem : rootZoneObjId ∈ s.zoneSpaces := by
      obtain ⟨hh, _, _⟩ := hrp
      cases hl : s.zoneSpaces with
      | nil => rw [hl] at hh; simp at hh
      | cons a tl =>
        rw [hl] at hh
        simp only [List.head?_cons, Option.some.injEq] at hh
        rw [hh]
        exact List.mem_cons_self _ _
    have ho : o ≠ rootZoneObjId := by
      intro h
      rw [h] at hnot
      exact hnot hrootmem
    have hrpT := compact_rootPinned s hInv hrp
    have hcore := registerZonesCore_rootPinned (_compactZonesCheck s) o n hrpT ho
    dsimp only
    split
    · exact hcore
    · exact rootPinned_of_allocFrame _ _ hcore (registerTail_allocframe _ o)

theorem unregisterFold_allocframe (s : MgrState) (o : ObjId) :
    AllocFrame s ((List.range (s.objs o).numZones).foldl (fun u j =>
      { _clearZoneList u ((s.objs o).zoneRangeStart.getD 0 + j) with
        zoneLists := (_clearZoneList u ((s.objs o).zoneRangeStart.getD 0 + j)).zoneLists.set
          ((s.objs o).zoneRangeStart.getD 0 + j) (some []) }) s) := by
  apply allocframe_foldl
  intro u j
  exact allocframe_trans (clearZoneList_allocframe u _)
    ⟨rfl, rfl, rfl, fun _ => rfl, fun _ => rfl⟩

theorem unregisterFinal_inv (s T : MgrState) (o : ObjId) (idx : Nat)
    (hInv : MgrInv s)
    (hidx : zoneSpaceIndexAux o s.zoneSpaces = some idx)
    (hf : AllocFrame s T) :
    MgrInv { T with
      numActiveZones := T.numActiveZones - (s.objs o).numZones,
      zoneSpaces := T.zoneSpaces.eraseIdx idx,
      objs := updFn T.objs o { T.objs o with zoneTypeMask := false, zoneRangeStart := none, numZones := 0 },
      dirtyArea := T.dirtyArea ++ (T.objs o).worldBox } := by
  obtain ⟨hzs, hal, hac, hrd, _⟩ := hf
  have hno : o ∉ s.zoneSpaces.eraseIdx idx := not_mem_eraseIdx _ o idx hidx hInv.nd
  have hcongr : ∀ x ∈ s.zoneSpaces.eraseIdx idx,
      rangeData (updFn T.objs o { T.objs o with zoneTypeMask := false, zoneRangeStart := none, numZones := 0 } x) = rangeData (s.objs x) := by
    intro x hx
    have hxo : x ≠ o := by
      intro h
      rw [h] at hx
      exact hno hx
    rw [updFn_ne _ _ _ _ hxo]
    exact hrd x
  constructor
  · dsimp only
    rw [hzs, chainB_congrOn _ s.objs _ hcongr]
    exact chainB_eraseIdx _ _ _ _ hInv.chain
  · intro x hx
    dsimp only at hx ⊢
    rw [hzs] at hx
    rw [hal, (ownerEnd_congr _ s.objs x (hcongr x hx)).2]
    exact hInv.ends x (mem_of_mem_eraseIdx _ _ _ hx)
  · dsimp only
    rw [hzs, hac,
      sumZones_congrOn _ s.objs _ (fun x hx => (rangeData_fields _ _ (hcongr x hx)).2)]
    have hsum := sumZones_eraseIdx s.objs s.zoneSpaces o idx hidx
    have hact := hInv.act
    omega
  · intro x hx
    dsimp only at hx ⊢
    rw [hzs] at hx
    rw [(rangeData_fields _ _ (hcongr x hx)).1]
    exact hInv.ranges x (mem_of_mem_eraseIdx _ _ _ hx)
  · dsimp only
    rw [hzs]
    exact nodup_eraseIdx _ _ hInv.nd

theorem unregister_inv (s : MgrState) (o : ObjId) (hInv : MgrInv s) :
    MgrInv (unregisterZones s o) := by
  cases hidx : _getZoneSpaceIndex s o with
  | none => simp only [unregisterZones, hidx]; exact hInv
  | some idx =>
    simp only [unregisterZones, hidx]
    exact unregisterFinal_inv s _ o idx hInv hidx (unregisterFold_allocframe s o)

theorem unregisterFinal_rootPinned (s T : MgrState) (o : ObjId) (idx : Nat)
    (_hInv : MgrInv s) (hrp : RootPinned s) (ho : o ≠ rootZoneObjId)
    (hidx : zoneSpaceIndexAux o s.zoneSpaces = some idx)
    (hf : AllocFrame s T) :
    RootPinned { T with
      numActiveZones := T.numActiveZones - (s.objs o).numZones,
      zoneSpaces := T.zoneSpaces.eraseIdx idx,
      objs := updFn T.objs o { T.objs o with zoneTypeMask := false, zoneRangeStart := none, numZones := 0 },
      dirtyArea := T.dirtyArea ++ (T.objs o).worldBox } := by
  obtain ⟨hzs, _, _, hrd, _⟩ := hf
  obtain ⟨hh, hrs, hn⟩ := hrp
  obtain ⟨tail, htail⟩ : ∃ tail, s.zoneSpaces = rootZoneObjId :: tail := by
    cases hl : s.zoneSpaces with
    | nil => rw [hl] at hh; simp at hh
    | cons a tl =>
      rw [hl] at hh
      simp only [List.head?_cons, Option.some.injEq] at hh
      exact ⟨tl, by rw [hh]⟩
  obtain ⟨j, hj⟩ : ∃ j, idx = j + 1 := by
    rw [htail] at hidx
    simp only [zoneSpaceIndexAux] at hidx
    rw [if_neg (fun h => ho h.symm)] at hidx
    cases hr : zoneSpaceIndexAux o tail with
    | none => rw [hr] at hidx; simp at hidx
    | some k =>
      rw [hr] at hidx
      simp at hidx
      exact ⟨k, by omega⟩
  have hne : rootZoneObjId ≠ o := fun h => ho h.symm
  refine ⟨?_, ?_, ?_⟩
  · dsimp only
    rw [hzs, htail, hj, List.eraseIdx_cons_succ]
    rfl
  · dsimp only
    rw [updFn_ne _ _ _ _ hne, (rangeData_fields _ _ (hrd rootZoneObjId)).1]
    exact hrs
  · dsimp only
    rw [updFn_ne _ _ _ _ hne, (rangeData_fields _ _ (hrd rootZoneObjId)).2]
    exact hn

theorem unregister_rootPinned (s : MgrState) (o : ObjId) (hInv : MgrInv s)
    (hrp : RootPinned s) (ho : o ≠ rootZoneObjId) :
    RootPinned (unregisterZones s o) := by
  cases hidx : _getZoneSpaceIndex s o with
  | none => simp only [unregisterZones, hidx]; exact hrp
  | some idx =>
    simp only [unregisterZones, hidx]
    exact unregisterFinal_rootPinned s _ o idx hInv hrp ho hidx
      (unregisterFold_allocframe s o)

theorem runZOps_inv (ops : List ZOp) (s : MgrState) (hInv : MgrInv s) :
    MgrInv (runZOps s ops) := by
  induction ops generalizing s with
  | nil => exact hInv
  | cons op rest ih =>
    cases op with
    | register o n => exact ih _ (register_inv s o n hInv)
    | unregister o => exact ih _ (unregister_inv s o hInv)

theorem runZOps_rootPinned (ops : List ZOp) (s : MgrState)
    (hInv : MgrInv s) (hrp : RootPinned s)
    (hops : ∀ op ∈ ops, op ≠ ZOp.unregister rootZoneObjId) :
    RootPinned (runZOps s ops) := by
  induction ops generalizing s with
  | nil => exact hrp
  | cons op rest ih =>
    cases op with
    | register o n =>
      exact ih _ (register_inv s o n hInv) (register_rootPinned s o n hInv hrp)
        (fun op hm => hops op (List.mem_cons_of_mem _ hm))
    | unregister o =>
      have ho : o ≠ rootZoneObjId := by
        intro h
        exact hops (ZOp.unregister o) (List.mem_cons_self _ _) (by rw [h])
      exact ih _ (unregister_inv s o hInv) (unregister_rootPinned s o hInv hrp ho)
        (fun op hm => hops op (List.mem_cons_of_mem _ hm))

theorem emptyState_inv (f : ObjId → ObjState) : MgrInv (emptyStateWith f) := by
  constructor
  · rfl
  · intro o ho; simp [emptyStateWith] at ho
  · rfl
  · intro o ho; simp [emptyStateWith] at ho
  · exact List.nodup_nil

theorem initState_inv (f : ObjId → ObjState) : MgrInv (initStateWith f) :=
  register_inv _ rootZoneObjId 1 (emptyState_inv f)

theorem initState_rootPinned (f : ObjId → ObjState) : RootPinned (initStateWith f) :=
  ⟨rfl, rfl, rfl⟩

/-- C3 (amended): after any sequence of registrations and unregistrations
(with their built-in compaction checks) starting from the initial root-only
state, the active owners' ID ranges are pairwise disjoint and each is
contained in `[0, totalAllocated)`; the union of the active ranges equals
`[0, totalAllocated)` whenever active-count equals allocated-count (in
particular immediately after a compaction), but not in general - holes left
by unregistration persist until the next compaction. -/
theorem allocator_ranges_disjoint (f : ObjId → ObjState) (ops : List ZOp) :
    ((runZOps (initStateWith f) ops).zoneSpaces.Pairwise (fun a b =>
      ∀ z, ¬(inOwnerRange (runZOps (initStateWith f) ops).objs a z ∧
             inOwnerRange (runZOps (initStateWith f) ops).objs b z))) ∧
    (∀ o ∈ (runZOps (initStateWith f) ops).zoneSpaces,
      ownerEnd (runZOps (initStateWith f) ops).objs o ≤
        (runZOps (initStateWith f) ops).numTotalAllocatedZones) ∧
    ((runZOps (initStateWith f) ops).numActiveZones =
        (runZOps (initStateWith f) ops).numTotalAllocatedZones →
      ∀ z, z < (runZOps (initStateWith f) ops).numTotalAllocatedZones →
        ∃ o ∈ (runZOps (initStateWith f) ops).zoneSpaces,
          inOwnerRange (runZOps (initStateWith f) ops).objs o z) := by
  have hInv := runZOps_inv ops _ (initState_inv f)
  refine ⟨?_, hInv.ends, ?_⟩
  · have hp := chainB_pairwise _ _ _ hInv.chain
    refine hp.imp ?_
    intro a b hab z hz
    simp only [inOwnerRange] at hz
    obtain ⟨⟨hz0, hz1⟩, hz2, hz3⟩ := hz
    exact Nat.lt_irrefl z (Nat.lt_of_lt_of_le hz1 (Nat.le_trans hab hz2))
  · intro heq z hzlt
    refine chainB_cover _ 0 _ _ hInv.chain hInv.ends ?_ z (Nat.zero_le z) hzlt
    rw [Nat.zero_add, ← hInv.act]
    exact heq

/-- C3 counterexample: after registering two single-zone owners and
unregistering the first, 3 zones are allocated but only 2 are active: zone
id 1 lies in `[0, totalAllocated)` yet belongs to no active owner's range,
so the union of active ranges is a strict subset of `[0, totalAllocated)`. -/
theorem allocator_union_counterexample :
    c3CxState.numTotalAllocatedZones = 3 ∧
    c3CxState.numActiveZones = 2 ∧
    c3CxState.zoneSpaces = [rootZoneObjId, 2] ∧
    (∀ o ∈ c3CxState.zoneSpaces, ¬ inOwnerRange c3CxState.objs o 1) := by
  refine ⟨by decide, by decide, by decide, ?_⟩
  simp only [inOwnerRange]
  decide

/-- C3 witness: a freshly registered owner's range is inside the allocated
id space. -/
theorem allocator_ranges_disjoint_witness :
    ownerEnd (runZOps (initStateWith cAllSpaces) [ZOp.register 1 1]).objs 1 ≤
      (runZOps (initStateWith cAllSpaces) [ZOp.register 1 1]).numTotalAllocatedZones :=
  (allocator_ranges_disjoint cAllSpaces [ZOp.register 1 1]).2.1 1 (by decide)

/-- C2 (amended): the Root zone IS in the regular owner list (`mZoneSpaces`)
and is included in the compaction walk, but since it is registered first it
always sits at the head of that list, so compaction reassigns it range
start 0 again; hence after any sequence of registrations, unregistrations
of non-root owners, and compactions, the Root zone's range is `[0,1)` and
no other active owner's range contains zone id 0. -/
theorem root_zone_pinned (f : ObjId → ObjState) (ops : List ZOp)
    (hops : ∀ op ∈ ops, op ≠ ZOp.unregister rootZoneObjId) :
    RootPinned (runZOps (initStateWith f) ops) ∧
    rootZoneObjId ∈ (runZOps (initStateWith f) ops).zoneSpaces ∧
    (∀ o ∈ (runZOps (initStateWith f) ops).zoneSpaces, o ≠ rootZoneObjId →
      ¬ inOwnerRange (runZOps (initStateWith f) ops).objs o RootZoneId) := by
  have hInv := runZOps_inv ops _ (initState_inv f)
  have hrp := runZOps_rootPinned ops _ (initState_inv f) (initState_rootPinned f) hops
  obtain ⟨hh, hrs, hn⟩ := hrp
  obtain ⟨tail, htail⟩ : ∃ tail,
      (runZOps (initStateWith f) ops).zoneSpaces = rootZoneObjId :: tail := by
    cases hl : (runZOps (initStateWith f) ops).zoneSpaces with
    | nil => rw [hl] at hh; simp at hh
    | cons a tl =>
      rw [hl] at hh
      simp only [List.head?_cons, Option.some.injEq] at hh
      exact ⟨tl, by rw [hh]⟩
  refine ⟨⟨hh, hrs, hn⟩, ?_, ?_⟩
  · rw [htail]
    exact List.mem_cons_self _ _
  · intro o ho hne
    rw [htail] at ho
    rcases List.mem_cons.mp ho with rfl | ho2
    · exact absurd rfl hne
    · have hchain := hInv.chain
      rw [htail] at hchain
      unfold chainB at hchain
      rw [Bool.and_eq_true] at hchain
      have h1 : ownerEnd (runZOps (initStateWith f) ops).objs rootZoneObjId = 1 := by
        simp [ownerEnd, ownerStart, hrs, hn]
      have hmono := chainB_start_le _ _ _ hchain.2 o ho2
      rw [h1] at hmono
      simp only [inOwnerRange, RootZoneId]
      rintro ⟨hle, _⟩
      omega

/-- C2 counterexample: the Root zone is NOT excluded from the regular owner
list - right after its self-registration it is the sole entry of
`mZoneSpaces`, the very list the compaction walk iterates. -/
theorem root_in_owner_list_counterexample :
    rootZoneObjId ∈ (initStateWith cAllSpaces).zoneSpaces ∧
    (initStateWith cAllSpaces).zoneSpaces = [rootZoneObjId] := by
  decide

/-- C2 witness: the root zone stays pinned at `[0,1)` across a concrete
registration. -/
theorem root_zone_pinned_witness :
    RootPinned (runZOps (initStateWith cAllSpaces) [ZOp.register 1 2]) :=
  (root_zone_pinned cAllSpaces [ZOp.register 1 2] (by decide)).1
